import Mathlib

/-!
# Connection registry and query dispatch of `core/server/server_handler.go`

A shallow embedding of `ServerHandler` (package `server`) and of the library
functions it calls, followed by theorems about the registry operations and
about `ComQuery` / `comKill`.

Conventions of the embedding.

* Go strings are modelled as `List Char` (valid UTF-8 text, one `Char` per rune).
* `uint32` keys are `Nat`; an `int64` is an `Int`; conversions are written with
  an explicit `% 2 ^ 32` / wrap-around.
* A `*hubclient.Connector` is `Option Connector`, `none` being the nil pointer.
* The Go map `connectorMap` is an association list whose first entry for a key
  is the entry of the map.
* Calls into collaborators (connector, parser, callback, log, mutex) are
  recorded, in program order, as a list of `Event`s returned by each method.
  What a collaborator returns is given by the environment `Env`.
-/

namespace Myhub

/-! ## Basic data -/

/-- A Go string. -/
abbrev Str := List Char

/-- Kind of a `strconv.NumError`: `strconv.ErrSyntax` or `strconv.ErrRange`. -/
inductive NumErrKind
  | syntaxErr
  | rangeErr
  deriving DecidableEq, Repr

/-- An `error` value. -/
inductive Error
  /-- An error value returned by a collaborator (parser, connector, callback). -/
  | collaborator (msg : Str)
  /-- The result of `errors.New` / `fmt.Errorf`, identified by its message. -/
  | new (msg : Str)
  /-- A `*strconv.NumError` with fields `Func`, `Num`, `Err`. -/
  | numError (func : Str) (num : Str) (kind : NumErrKind)
  deriving DecidableEq, Repr

/-- A `hubclient.Connector` object, identified by its address. -/
structure Connector where
  addr : Nat
  deriving DecidableEq, Repr

/-- The part of `mysql.Conn` this file reads: the `uint32` field `ConnectionID`. -/
structure Conn where
  ConnectionID : Nat
  deriving DecidableEq, Repr

/-- A parsed `sqlparser.Statement`, an opaque handle. -/
structure Statement where
  handle : Nat
  deriving DecidableEq, Repr

/-- The struct `sqltypes.Result`: `Fields`, `RowsAffected`, `InsertID`, `Rows`. -/
structure Result where
  Fields : List Str
  RowsAffected : Nat
  InsertID : Nat
  Rows : List (List Str)
  deriving DecidableEq, Repr

/-- The composite literal `sqltypes.Result{}`: every field has its zero value. -/
def Result.zero : Result :=
  { Fields := [], RowsAffected := 0, InsertID := 0, Rows := [] }

/-- The value passed as `conn interface{}`: a `*hubclient.Connector` or anything else. -/
inductive Token
  | connector (c : Connector)
  | other
  deriving DecidableEq, Repr

/-- Calls into collaborators, in program order. -/
inductive Event
  /-- `mu.Lock()` -/
  | lock
  /-- `mu.Unlock()` -/
  | unlock
  /-- a read or write of `connectorMap` -/
  | mapAccess
  /-- `hubclient.NewConnector(c)` followed by `SetServerHandler(this)` -/
  | newConnector (c : Connector)
  /-- `Connector.UpActiveTime()` -/
  | upActiveTime (c : Connector)
  /-- `glog.Query("Query: ", query)` -/
  | logQuery (query : Str)
  /-- `sqlparser.Parse(query)` -/
  | parse (query : Str)
  /-- `Connector.ComQuery(stmt, query)` -/
  | execute (c : Connector) (stmt : Statement) (query : Str)
  /-- `callback(rs)`, `rs` a `*sqltypes.Result` -/
  | callback (rs : Option Result)
  /-- `Connector.Close()` -/
  | close (c : Connector)
  /-- `glog.Flush()` -/
  | flush
  deriving DecidableEq, Repr

/-- The connectors whose `Close` was called, in order. -/
def closes : List Event → List Connector
  | [] => []
  | Event.close c :: es => c :: closes es
  | _ :: es => closes es

/-- The results the callback was invoked with, in order. -/
def callbacks : List Event → List (Option Result)
  | [] => []
  | Event.callback r :: es => r :: callbacks es
  | _ :: es => callbacks es

/-- The calls of the connector's execute operation `Connector.ComQuery`, in order. -/
def executes : List Event → List (Connector × Statement × Str)
  | [] => []
  | Event.execute c s q :: es => (c, s, q) :: executes es
  | _ :: es => executes es

/-! ## Library functions: `strings` -/

/-- The rune mapping `unicode.ToLower`: ASCII letters are shifted, runes above
`unicode.MaxASCII` go through the case tables, given here as `special`. -/
def unicodeToLower (special : Char → Char) (r : Char) : Char :=
  if r.toNat ≤ 127 then
    if 65 ≤ r.toNat ∧ r.toNat ≤ 90 then Char.ofNat (r.toNat + 32) else r
  else special r

/-- The function `strings.ToLower`. -/
def toLower (special : Char → Char) (s : Str) : Str :=
  s.map (unicodeToLower special)

/-- The call `strings.Replace(s, old, "", -1)` for a one-character `old`. -/
def removeAll (old : Char) (s : Str) : Str :=
  s.filter (fun c => c != old)

/-- The call `strings.Split(s, " ")`: the pieces between single spaces. -/
def splitSpace : Str → List Str
  | [] => [[]]
  | c :: cs =>
    if c = ' ' then [] :: splitSpace cs
    else
      match splitSpace cs with
      | [] => [[c]]
      | t :: ts => (c :: t) :: ts

/-! ## Library functions: `regexp` -/

/-- The fragment of RE2 syntax used by the two patterns of `ComQuery`. A lazy
quantifier accepts the same texts as the greedy one, so `.+?` is `plus anyCharNotNL`. -/
inductive Regexp
  /-- a literal character -/
  | lit (c : Char)
  /-- `.` without the `s` flag: any character but a newline -/
  | anyCharNotNL
  /-- concatenation -/
  | cat (r s : Regexp)
  /-- `r*` and `r*?` -/
  | star (r : Regexp)
  /-- `r+` and `r+?` -/
  | plus (r : Regexp)
  /-- `^` without the `m` flag: at the beginning of the text -/
  | beginText
  /-- `$` without the `m` flag: at the end of the text -/
  | endText
  deriving DecidableEq, Repr

/-- A position of the matcher: whether it is the beginning of the text, and the
text that is left. -/
abbrev Pos := Bool × Str

/-- Iteration of a matcher `f`; an iteration that consumes nothing is dropped. -/
def starLoop (f : Pos → List Pos) : Nat → Pos → List Pos
  | 0, p => [p]
  | fuel + 1, p =>
    p :: ((f p).filter (fun q => decide (q.2.length < p.2.length))).flatMap (starLoop f fuel)

/-- All positions at which a match of `r` that starts at `p` can end. -/
def Regexp.ends : Regexp → Pos → List Pos
  | .lit c, p =>
    match p.2 with
    | [] => []
    | x :: t => if x = c then [(false, t)] else []
  | .anyCharNotNL, p =>
    match p.2 with
    | [] => []
    | x :: t => if x = '\n' then [] else [(false, t)]
  | .cat r s, p => (r.ends p).flatMap s.ends
  | .star r, p => starLoop r.ends p.2.length p
  | .plus r, p => (r.ends p).flatMap (fun q => starLoop r.ends q.2.length q)
  | .beginText, p => if p.1 then [p] else []
  | .endText, p => if p.2 = [] then [p] else []

/-- The method `(*Regexp).MatchString`: some substring of `s` matches `r`. -/
def Regexp.MatchString (r : Regexp) (s : Str) : Bool :=
  (List.range (s.length + 1)).any (fun i => !(r.ends (i == 0, s.drop i)).isEmpty)

/-- The pattern `^\/\*.+?\*\/$`. -/
def reComment : Regexp :=
  .cat .beginText (.cat (.lit '/') (.cat (.lit '*') (.cat (.plus .anyCharNotNL)
    (.cat (.lit '*') (.cat (.lit '/') .endText)))))

/-- The pattern `^set.*collate`. -/
def reSetCollate : Regexp :=
  .cat .beginText (.cat (.lit 's') (.cat (.lit 'e') (.cat (.lit 't') (.cat (.star .anyCharNotNL)
    (.cat (.lit 'c') (.cat (.lit 'o') (.cat (.lit 'l') (.cat (.lit 'l') (.cat (.lit 'a')
    (.cat (.lit 't') (.lit 'e')))))))))))

/-- The function `regexp.Compile` on a pattern literal of this file, given as
its syntax tree: the pattern is valid, so the compiled expression comes with a
nil error. -/
def regexpCompile (pattern : Regexp) : Regexp × Option Error :=
  (pattern, none)

/-! ## Library functions: `strconv` and `fmt` -/

/-- The largest `uint64`. -/
def maxUint64 : Nat := 2 ^ 64 - 1

/-- The loop of `strconv.ParseUint(s, 10, 64)` over the bytes of `s`, with
accumulator `n`: a byte that is not a decimal digit is a syntax error, an
overflow of `n * 10` or of `n + d` is a range error. -/
def parseUintLoop (s0 : Str) : Nat → Str → Except Error Nat
  | n, [] => .ok n
  | n, c :: cs =>
    if 48 ≤ c.toNat ∧ c.toNat ≤ 57 then
      let d := c.toNat - 48
      if n ≥ maxUint64 / 10 + 1 then
        .error (Error.numError "ParseUint".toList s0 .rangeErr)
      else
        let n1 := n * 10 + d
        if n1 > maxUint64 then
          .error (Error.numError "ParseUint".toList s0 .rangeErr)
        else parseUintLoop s0 n1 cs
    else .error (Error.numError "ParseUint".toList s0 .syntaxErr)

/-- The call `strconv.ParseUint(s, 10, 64)`. -/
def parseUint (s : Str) : Except Error Nat :=
  if s = [] then .error (Error.numError "ParseUint".toList s .syntaxErr)
  else parseUintLoop s 0 s

/-- The conversion to `int64`: wrap-around into `[-2^63, 2^63)`. -/
def toInt64 (i : Int) : Int :=
  (i + 2 ^ 63) % 2 ^ 64 - 2 ^ 63

/-- The call `strconv.ParseInt(s, 10, 64)`: an optional sign, then
`ParseUint`; every error is reported with `Func = "ParseInt"` and `Num = s`. -/
def parseInt (s : Str) : Except Error Int :=
  match s with
  | [] => .error (Error.numError "ParseInt".toList s .syntaxErr)
  | c :: cs =>
    let neg := decide (c = '-')
    let body := if c = '+' ∨ c = '-' then cs else s
    match parseUint body with
    | .error (Error.numError _ _ .syntaxErr) =>
      .error (Error.numError "ParseInt".toList s .syntaxErr)
    | .error _ => .error (Error.numError "ParseInt".toList s .rangeErr)
    | .ok un =>
      if !neg ∧ un ≥ 2 ^ 63 then .error (Error.numError "ParseInt".toList s .rangeErr)
      else if neg ∧ un > 2 ^ 63 then .error (Error.numError "ParseInt".toList s .rangeErr)
      else
        let n := toInt64 un
        .ok (if neg then toInt64 (-n) else n)

/-- The decimal digits of a natural number, most significant first (`"0"` for 0). -/
def formatNat (n : Nat) : Str :=
  if n = 0 then ['0'] else ((Nat.digits 10 n).map (fun d => Char.ofNat (48 + d))).reverse

/-- The verb `%d` of `fmt` on an `int64`: decimal, with `-` for a negative number. -/
def formatInt (i : Int) : Str :=
  if i < 0 then '-' :: formatNat i.natAbs else formatNat i.natAbs

/-- The conversion `uint32(id)` of an `int64`. -/
def toUint32 (id : Int) : Nat :=
  (id % 2 ^ 32).toNat

/-! ## Library functions: `float64` and `time` -/

/-- A finite `float64`, the number `(-1)^sign * mant * 2^exp`. Infinities and
NaN are left out: the values of this file are conversions of integers and
their quotients by `1000000`, which are finite. -/
structure Float64 where
  sign : Bool
  mant : Nat
  exp : Int
  deriving DecidableEq, Repr

/-- The fraction `p / q` divided by `2^e`, as a fraction. -/
def scaleFrac (p q : Nat) (e : Int) : Nat × Nat :=
  if 0 ≤ e then (p, q * 2 ^ e.toNat) else (p * 2 ^ (-e).toNat, q)

/-- The integer part of the binary logarithm of `n`, by halving, `fuel` bounding
the number of halvings. -/
def log2Fuel : Nat → Nat → Nat
  | 0, _ => 0
  | fuel + 1, n => if 2 ≤ n then log2Fuel fuel (n / 2) + 1 else 0

/-- The integer part of the binary logarithm of `p / q`, for `p` and `q` positive. -/
def floorLog2 (p q : Nat) : Int :=
  let k : Int := (log2Fuel p p : Int) - (log2Fuel q q : Int)
  let s := scaleFrac p q k
  if s.2 ≤ s.1 then k else k - 1

/-- The `float64` nearest to `(-1)^sign * p / q`, ties going to the even
mantissa: the rounding of every IEEE 754 operation, for a result in the normal
range. The mantissa has 53 bits; a round-up to `2^53` keeps the exponent. -/
def roundFloat64 (sign : Bool) (p q : Nat) : Float64 :=
  if p = 0 then { sign := sign, mant := 0, exp := 0 }
  else
    let e := floorLog2 p q - 52
    let s := scaleFrac p q e
    let m := s.1 / s.2
    let r := s.1 % s.2
    let up := decide (s.2 < 2 * r) || (decide (2 * r = s.2) && decide (m % 2 = 1))
    { sign := sign, mant := if up then m + 1 else m, exp := e }

/-- The conversion `float64(n)` of an integer. -/
def Float64.ofInt (n : Int) : Float64 :=
  roundFloat64 (decide (n < 0)) n.natAbs 1

/-- The quotient `a / b` of `float64`, for a divisor that is not zero. -/
def Float64.div (a b : Float64) : Float64 :=
  let s := scaleFrac a.mant b.mant (b.exp - a.exp)
  roundFloat64 (a.sign != b.sign) s.1 s.2

/-- The integer `a / 2^e`, for `e` at most the exponent of `a`. -/
def Float64.scaled (a : Float64) (e : Int) : Int :=
  (if a.sign then -1 else 1) * (a.mant : Int) * 2 ^ (a.exp - e).toNat

/-- The comparison `a < b` of `float64`. -/
def Float64.lt (a b : Float64) : Bool :=
  decide (a.scaled (min a.exp b.exp) < b.scaled (min a.exp b.exp))

/-- The number a `float64` stands for. -/
def Float64.val (a : Float64) : ℚ :=
  (if a.sign then -1 else 1) * (a.mant : ℚ) * (2 : ℚ) ^ a.exp

/-- The method `Time.Sub` on instants counted in nanoseconds: the difference,
kept within the `int64` of a `Duration`. -/
def timeSub (t u : Int) : Int :=
  if t - u > 2 ^ 63 - 1 then 2 ^ 63 - 1
  else if t - u < -2 ^ 63 then -2 ^ 63
  else t - u

/-! ## The registry -/

/-- The map `map[uint32]*hubclient.Connector`. -/
abbrev ConnectorMap := List (Nat × Option Connector)

/-- The index expression `conn, ok := m[key]`. -/
def ConnectorMap.index (m : ConnectorMap) (key : Nat) : Option Connector × Bool :=
  match m.lookup key with
  | some conn => (conn, true)
  | none => (none, false)

/-- The builtin `delete(m, key)`. -/
def ConnectorMap.delete (m : ConnectorMap) (key : Nat) : ConnectorMap :=
  m.filter (fun e => e.1 != key)

/-- The assignment `m[key] = conn`. -/
def ConnectorMap.assign (m : ConnectorMap) (key : Nat) (conn : Option Connector) :
    ConnectorMap :=
  (key, conn) :: m.delete key

/-- The struct `ServerHandler`; the mutex `mu` shows as `lock` / `unlock` events. -/
structure ServerHandler where
  connectorMap : ConnectorMap
  deriving DecidableEq, Repr

/-- The constructor `NewServerHandler`. -/
def NewServerHandler : ServerHandler :=
  { connectorMap := [] }

/-- What the collaborators return. -/
structure Env where
  /-- `sqlparser.Parse` -/
  parse : Str → Except Error Statement
  /-- `unicode.ToLower` above ASCII -/
  lowerSpecial : Char → Char
  /-- `Connector.ComQuery` -/
  execute : Connector → Statement → Str → Except Error Result
  /-- `Connector.Close` -/
  close : Connector → Option Error

/-- The state of the handler after a method, what the method returned, and the
calls it made. -/
structure Outcome (α : Type) where
  handler : ServerHandler
  ret : α
  events : List Event

/-- The method `getConnectorCount`. -/
def ServerHandler.getConnectorCount (this : ServerHandler) : Outcome Nat :=
  { handler := this, ret := this.connectorMap.length, events := [Event.mapAccess] }

/-- The method `GetConnectorMap`: a copy of the map. -/
def ServerHandler.GetConnectorMap (this : ServerHandler) : Outcome ConnectorMap :=
  { handler := this, ret := this.connectorMap, events := [Event.mapAccess] }

/-- The method `getConnector`. -/
def ServerHandler.getConnector (this : ServerHandler) (c : Conn) :
    Outcome (Option Connector) :=
  let (conn, ok) := this.connectorMap.index c.ConnectionID
  { handler := this
    ret := if ok then conn else none
    events := [Event.lock, Event.mapAccess, Event.unlock] }

/-- The method `getConnectorById`. -/
def ServerHandler.getConnectorById (this : ServerHandler) (id : Int) :
    Outcome (Option Connector) :=
  let (conn, ok) := this.connectorMap.index (toUint32 id)
  { handler := this
    ret := if ok then conn else none
    events := [Event.lock, Event.mapAccess, Event.unlock] }

/-- The method `addConnector`; `mConnector` is the object that
`hubclient.NewConnector(c)` returns. -/
def ServerHandler.addConnector (this : ServerHandler) (c : Conn) (mConnector : Connector) :
    Outcome Connector :=
  let (conn, ok) := this.connectorMap.index c.ConnectionID
  let this1 : ServerHandler :=
    { connectorMap := this.connectorMap.assign c.ConnectionID (some mConnector) }
  let pre := [Event.newConnector mConnector, Event.lock, Event.mapAccess, Event.mapAccess,
    Event.unlock]
  match ok, conn with
  | true, some old => { handler := this1, ret := mConnector, events := pre ++ [Event.close old] }
  | _, _ => { handler := this1, ret := mConnector, events := pre }

/-- The method `delConnector`. -/
def ServerHandler.delConnector (this : ServerHandler) (c : Conn) : Outcome Unit :=
  let (conn, ok) := this.connectorMap.index c.ConnectionID
  let this1 : ServerHandler := { connectorMap := this.connectorMap.delete c.ConnectionID }
  let pre := [Event.lock, Event.mapAccess, Event.mapAccess, Event.unlock]
  match ok, conn with
  | true, some old => { handler := this1, ret := (), events := pre ++ [Event.close old] }
  | _, _ => { handler := this1, ret := (), events := pre }

/-- The method `NewConnection`. -/
def ServerHandler.NewConnection (this : ServerHandler) (c : Conn) (mConnector : Connector) :
    Outcome Connector :=
  this.addConnector c mConnector

/-- The method `ConnectionClosed`. -/
def ServerHandler.ConnectionClosed (this : ServerHandler) (c : Conn) : Outcome Unit :=
  this.delConnector c

/-- The method `isBlacklistQuery`. -/
def ServerHandler.isBlacklistQuery (_this : ServerHandler) (_query : Str) : Bool :=
  false

/-- The loop of `comKill` over the tokens, with the variables `cmdKill` and
`cmdKillIdStr`; the second branch is the `break`. -/
def killScan : Str → Str → List Str → Str × Str
  | cmdKill, cmdKillIdStr, [] => (cmdKill, cmdKillIdStr)
  | cmdKill, cmdKillIdStr, token :: rest =>
    if cmdKill.length ≤ 0 ∧ token = "kill".toList then killScan token cmdKillIdStr rest
    else if cmdKill.length > 0 ∧ cmdKillIdStr.length ≤ 0 then (cmdKill, token)
    else killScan cmdKill cmdKillIdStr rest

/-- The text `comKill` works on: backquotes and newlines removed, lower case. -/
def normalize (env : Env) (query : Str) : Str :=
  toLower env.lowerSpecial (removeAll '\n' (removeAll (Char.ofNat 96) query))

/-- The three results `(rs, err, ok)` of `comKill`. -/
structure KillRet where
  rs : Option Result
  err : Option Error
  ok : Bool
  deriving DecidableEq, Repr

/-- The method `comKill`. -/
def ServerHandler.comKill (env : Env) (this : ServerHandler) (query : Str) :
    Outcome KillRet :=
  let tokens := splitSpace (normalize env query)
  let (cmdKill, cmdKillIdStr) := killScan [] [] tokens
  if cmdKill.length ≤ 0 then
    { handler := this, ret := { rs := none, err := none, ok := false }, events := [] }
  else
    match parseInt cmdKillIdStr with
    | .error err =>
      { handler := this, ret := { rs := none, err := some err, ok := true }, events := [] }
    | .ok id =>
      let g := this.getConnectorById id
      match g.ret with
      | none =>
        { handler := g.handler
          ret := { rs := none
                   err := some (Error.new ("no connection of :".toList ++ formatInt id))
                   ok := true }
          events := g.events }
      | some c =>
        { handler := g.handler
          ret := { rs := some { Fields := [], RowsAffected := 1, InsertID := 0, Rows := [] }
                   err := env.close c
                   ok := true }
          events := g.events ++ [Event.close c] }

/-- The body of the method `ComQuery`, the value of its call
`this.isBlacklistQuery(query)` being given as `blacklisted`. In the branch of a
parse failure the variable `err` is the one declared by
`reg, err := regexp.Compile(...)` inside the block: it shadows the error of
`sqlparser.Parse`, and it is the one the final `return err` of the block
returns. -/
def ServerHandler.ComQueryBody (blacklisted : Bool) (env : Env) (this : ServerHandler)
    (conn : Token) (query : Str) (callback : Option Result → Option Error) :
    Outcome (Option Error) :=
  match conn with
  | .other => { handler := this, ret := some (Error.new "not connect!".toList), events := [] }
  | .connector mConnector =>
    let ev0 := [Event.upActiveTime mConnector, Event.logQuery query]
    if blacklisted then
      { handler := this
        ret := some (Error.new ("Myhub refused execute: ".toList ++ query))
        events := ev0 }
    else
      let ev1 := ev0 ++ [Event.parse query]
      match env.parse query with
      | .error _ =>
        let (reg, _) := regexpCompile reComment
        if reg.MatchString query then
          { handler := this, ret := none, events := ev1 ++ [Event.callback (some Result.zero)] }
        else
          let (reg, err) := regexpCompile reSetCollate
          if reg.MatchString query then
            { handler := this, ret := none
              events := ev1 ++ [Event.callback (some Result.zero)] }
          else
            let k := this.comKill env query
            if k.ret.ok ∨ k.ret.err ≠ none then
              match k.ret.err with
              | some killErr => { handler := k.handler, ret := some killErr, events := ev1 ++ k.events }
              | none =>
                { handler := k.handler, ret := none
                  events := ev1 ++ k.events ++ [Event.callback k.ret.rs] }
            else { handler := k.handler, ret := err, events := ev1 ++ k.events }
      | .ok stmt =>
        let ev2 := ev1 ++ [Event.execute mConnector stmt query]
        match env.execute mConnector stmt query with
        | .error err => { handler := this, ret := some err, events := ev2 ++ [Event.flush] }
        | .ok rs =>
          { handler := this, ret := callback (some rs)
            events := ev2 ++ [Event.callback (some rs), Event.flush] }

/-- The method `ComQuery`: its body at the value of `this.isBlacklistQuery(query)`. -/
def ServerHandler.ComQuery (env : Env) (this : ServerHandler) (conn : Token) (query : Str)
    (callback : Option Result → Option Error) : Outcome (Option Error) :=
  this.ComQueryBody (this.isBlacklistQuery query) env conn query callback

/-- The calls of the parser `sqlparser.Parse`, in order. -/
def parses : List Event → List Str
  | [] => []
  | Event.parse q :: es => q :: parses es
  | _ :: es => parses es

/-- The lock discipline on a trace, `held` telling whether the mutex is held at
its start: `lock` only when free, `unlock` and `mapAccess` only when held,
`close` only when free, and the mutex free at the end. -/
def lockDisciplined : Bool → List Event → Bool
  | held, [] => !held
  | held, Event.lock :: es => !held && lockDisciplined true es
  | held, Event.unlock :: es => held && lockDisciplined false es
  | held, Event.mapAccess :: es => held && lockDisciplined held es
  | held, Event.close _ :: es => !held && lockDisciplined held es
  | held, _ :: es => lockDisciplined held es

/-- A record of the slow log: the arguments `query` and `millisecond` of the
format `"%s [use: %.2f]"` whose text goes to `glog.Slow`. -/
structure SlowRecord where
  query : Str
  millisecond : Float64
  deriving DecidableEq, Repr

/-- The method `QueryTimeRecord`, which returns the records it gives to
`glog.Slow`; `slowTime` is what `core.App().GetSlowLogTime()` returns, an
integer count of milliseconds, and `now` what `time.Now()` returns. -/
def ServerHandler.QueryTimeRecord (_this : ServerHandler) (slowTime : Int) (now : Int)
    (query : Str) (startTime : Int) : List SlowRecord :=
  if slowTime ≤ 0 then []
  else
    let millisecond := Float64.div (Float64.ofInt (timeSub now startTime))
      (Float64.ofInt 1000000)
    if Float64.lt millisecond (Float64.ofInt slowTime) then []
    else [{ query := query, millisecond := millisecond }]

/-! ## Sample collaborators -/

/-- An environment whose parser rejects every text, whose connectors execute
to the empty result and close without error. -/
def rejectAll : Env :=
  { parse := fun _ => .error (Error.collaborator "syntax error".toList)
    lowerSpecial := fun r => r
    execute := fun _ _ _ => .ok Result.zero
    close := fun _ => none }

/-- As `rejectAll`, with connectors whose `Close` fails. -/
def rejectAllCloseFails : Env :=
  { rejectAll with close := fun _ => some (Error.collaborator "close failed".toList) }

/-- A registry with sessions 7 and 9. -/
def twoSessions : ServerHandler :=
  { connectorMap := [(7, some ⟨1⟩), (9, some ⟨2⟩)] }

/-- A callback that succeeds. -/
def okCallback : Option Result → Option Error :=
  fun _ => none

/-- An environment whose parser accepts every text, whose connectors execute
to the empty result and close without error. -/
def acceptAll : Env :=
  { parse := fun _ => .ok ⟨0⟩
    lowerSpecial := fun r => r
    execute := fun _ _ _ => .ok Result.zero
    close := fun _ => none }

/-- As `acceptAll`, with connectors whose execution fails. -/
def acceptAllExecFails : Env :=
  { acceptAll with execute := fun _ _ _ => .error (Error.collaborator "backend down".toList) }

/-- A callback that fails. -/
def failCallback : Option Result → Option Error :=
  fun _ => some (Error.collaborator "delivery failed".toList)

/-! ## Lemmas on the registry map -/

theorem ConnectorMap.lookup_delete_self (m : ConnectorMap) (k : Nat) :
    List.lookup k (m.delete k) = none := by
  induction m with
  | nil => rfl
  | cons e m ih =>
    obtain ⟨k1, v⟩ := e
    by_cases h : k1 = k
    · subst h
      simpa [ConnectorMap.delete, List.filter_cons] using ih
    · have h2 : (k == k1) = false := by simpa using fun h3 => h h3.symm
      simpa [ConnectorMap.delete, List.filter_cons, h, List.lookup_cons, h2] using ih

theorem ConnectorMap.lookup_delete_ne (m : ConnectorMap) (k j : Nat) (hne : j ≠ k) :
    List.lookup j (m.delete k) = List.lookup j m := by
  induction m with
  | nil => rfl
  | cons e m ih =>
    obtain ⟨k1, v⟩ := e
    by_cases h : k1 = k
    · subst h
      have h2 : (j == k1) = false := by simpa using hne
      simpa [ConnectorMap.delete, List.filter_cons, List.lookup_cons, h2] using ih
    · by_cases h3 : j = k1
      · subst h3
        simp [ConnectorMap.delete, List.filter_cons, h, List.lookup_cons]
      · have h2 : (j == k1) = false := by simpa using h3
        simpa [ConnectorMap.delete, List.filter_cons, h, List.lookup_cons, h2] using ih

theorem ConnectorMap.delete_of_lookup_none (m : ConnectorMap) (k : Nat)
    (hk : List.lookup k m = none) : m.delete k = m := by
  induction m with
  | nil => rfl
  | cons e m ih =>
    obtain ⟨k1, v⟩ := e
    by_cases h : k = k1
    · subst h
      simp [List.lookup_cons] at hk
    · have h2 : (k == k1) = false := by simpa using h
      rw [List.lookup_cons, h2] at hk
      have h3 : ¬ k1 = k := fun h4 => h h4.symm
      have ih2 := ih hk
      simp only [ConnectorMap.delete] at ih2 ⊢
      simp [List.filter_cons, h3, ih2]

theorem ConnectorMap.lookup_assign_self (m : ConnectorMap) (k : Nat) (v : Option Connector) :
    List.lookup k (m.assign k v) = some v := by
  simp [ConnectorMap.assign, List.lookup_cons]

theorem ConnectorMap.lookup_assign_ne (m : ConnectorMap) (k j : Nat) (v : Option Connector)
    (hne : j ≠ k) : List.lookup j (m.assign k v) = List.lookup j m := by
  have h2 : (j == k) = false := by simpa using hne
  simp only [ConnectorMap.assign, List.lookup_cons, h2]
  exact ConnectorMap.lookup_delete_ne m k j hne

theorem toUint32_natCast (k : Nat) (hk : k < 2 ^ 32) : toUint32 (k : Int) = k := by
  unfold toUint32
  have h : ((k : Int) % 2 ^ 32) = (k : Int) := by
    apply Int.emod_eq_of_lt <;> omega
  rw [h]
  simp

theorem closes_append (xs ys : List Event) : closes (xs ++ ys) = closes xs ++ closes ys := by
  induction xs with
  | nil => rfl
  | cons e xs ih => cases e <;> simp [closes, ih]

theorem callbacks_append (xs ys : List Event) :
    callbacks (xs ++ ys) = callbacks xs ++ callbacks ys := by
  induction xs with
  | nil => rfl
  | cons e xs ih => cases e <;> simp [callbacks, ih]

theorem executes_append (xs ys : List Event) :
    executes (xs ++ ys) = executes xs ++ executes ys := by
  induction xs with
  | nil => rfl
  | cons e xs ih => cases e <;> simp [executes, ih]

/-- What `addConnector` does, by the previous entry of the key. -/
theorem addConnector_handler (this : ServerHandler) (c : Conn) (m : Connector) :
    (this.addConnector c m).handler
      = { connectorMap := this.connectorMap.assign c.ConnectionID (some m) } := by
  unfold ServerHandler.addConnector ConnectorMap.index
  cases h : List.lookup c.ConnectionID this.connectorMap with
  | none => rfl
  | some v => cases v <;> rfl

theorem addConnector_closes (this : ServerHandler) (c : Conn) (m : Connector) :
    closes (this.addConnector c m).events
      = match List.lookup c.ConnectionID this.connectorMap with
        | some (some old) => [old]
        | _ => [] := by
  unfold ServerHandler.addConnector ConnectorMap.index
  cases h : List.lookup c.ConnectionID this.connectorMap with
  | none => rfl
  | some v => cases v <;> rfl

theorem delConnector_handler (this : ServerHandler) (c : Conn) :
    (this.delConnector c).handler
      = { connectorMap := this.connectorMap.delete c.ConnectionID } := by
  unfold ServerHandler.delConnector ConnectorMap.index
  cases h : List.lookup c.ConnectionID this.connectorMap with
  | none => rfl
  | some v => cases v <;> rfl

theorem delConnector_closes (this : ServerHandler) (c : Conn) :
    closes (this.delConnector c).events
      = match List.lookup c.ConnectionID this.connectorMap with
        | some (some old) => [old]
        | _ => [] := by
  unfold ServerHandler.delConnector ConnectorMap.index
  cases h : List.lookup c.ConnectionID this.connectorMap with
  | none => rfl
  | some v => cases v <;> rfl

theorem getConnector_ret (this : ServerHandler) (c : Conn) :
    (this.getConnector c).ret = (List.lookup c.ConnectionID this.connectorMap).join := by
  unfold ServerHandler.getConnector ConnectorMap.index
  cases h : List.lookup c.ConnectionID this.connectorMap with
  | none => rfl
  | some v => cases v <;> rfl

theorem getConnectorById_ret (this : ServerHandler) (id : Int) :
    (this.getConnectorById id).ret = (List.lookup (toUint32 id) this.connectorMap).join := by
  unfold ServerHandler.getConnectorById ConnectorMap.index
  cases h : List.lookup (toUint32 id) this.connectorMap with
  | none => rfl
  | some v => cases v <;> rfl

/-! ## Lemmas on `strconv`, `fmt` and `strings` -/

theorem maxUint64_eq : maxUint64 = 18446744073709551615 := by
  norm_num [maxUint64]

theorem digitChar_toNat (d : Nat) (hd : d < 10) : (Char.ofNat (48 + d)).toNat = 48 + d := by
  interval_cases d <;> rfl

theorem foldl_digits_ge (ds : List Nat) (n : Nat) :
    n ≤ ds.foldl (fun a d => a * 10 + d) n := by
  induction ds generalizing n with
  | nil => simp
  | cons d ds ih =>
    simp only [List.foldl_cons]
    have := ih (n * 10 + d)
    omega

theorem parseUintLoop_digits (s0 : Str) (ds : List Nat) (n : Nat)
    (hds : ∀ d ∈ ds, d < 10) (hle : ds.foldl (fun a d => a * 10 + d) n ≤ maxUint64) :
    parseUintLoop s0 n (ds.map (fun d => Char.ofNat (48 + d)))
      = .ok (ds.foldl (fun a d => a * 10 + d) n) := by
  induction ds generalizing n with
  | nil => rfl
  | cons d ds ih =>
    have hd : d < 10 := hds d (by simp)
    have hge := foldl_digits_ge ds (n * 10 + d)
    simp only [List.foldl_cons] at hle ⊢
    have hm := maxUint64_eq
    simp only [List.map_cons, parseUintLoop, digitChar_toNat d hd]
    rw [if_pos (by omega), if_neg (by omega)]
    simp only [Nat.add_sub_cancel_left]
    rw [if_neg (by omega)]
    exact ih (n * 10 + d) (fun x hx => hds x (by simp [hx])) hle

theorem foldl_reverse_digits (n : Nat) :
    (Nat.digits 10 n).reverse.foldl (fun a d => a * 10 + d) 0 = n := by
  rw [List.foldl_reverse]
  have h : ∀ L : List Nat, List.foldr (fun x y => y * 10 + x) 0 L = Nat.ofDigits 10 L := by
    intro L
    induction L with
    | nil => rfl
    | cons x L ih =>
      simp only [List.foldr_cons, Nat.ofDigits_cons, ih]
      rw [Nat.mul_comm]
      simp [Nat.add_comm]
  rw [h, Nat.ofDigits_digits]

theorem formatNat_eq (n : Nat) (hn : n ≠ 0) :
    formatNat n = (Nat.digits 10 n).reverse.map (fun d => Char.ofNat (48 + d)) := by
  simp [formatNat, hn, List.map_reverse]

theorem formatNat_ne_nil (n : Nat) : formatNat n ≠ [] := by
  by_cases hn : n = 0
  · simp [formatNat, hn]
  · rw [formatNat_eq n hn]
    simpa [Nat.digits_ne_nil_iff_ne_zero] using hn

/-- Every character of `formatNat n` is a decimal digit. -/
theorem formatNat_digit (n : Nat) (c : Char) (hc : c ∈ formatNat n) :
    ∃ d, d < 10 ∧ c = Char.ofNat (48 + d) := by
  by_cases hn : n = 0
  · refine ⟨0, by omega, ?_⟩
    simpa [formatNat, hn] using hc
  · rw [formatNat_eq n hn] at hc
    simp only [List.mem_map, List.mem_reverse] at hc
    obtain ⟨d, hd, rfl⟩ := hc
    exact ⟨d, Nat.digits_lt_base (by omega) hd, rfl⟩

theorem parseUint_formatNat (n : Nat) (hn : n ≤ maxUint64) :
    parseUint (formatNat n) = .ok n := by
  unfold parseUint
  rw [if_neg (formatNat_ne_nil n)]
  by_cases h0 : n = 0
  · subst h0
    rfl
  · have hf := formatNat_eq n h0
    have hl := parseUintLoop_digits (formatNat n) (Nat.digits 10 n).reverse 0
      (fun d hd => Nat.digits_lt_base (by omega) (List.mem_reverse.1 hd))
      (by rw [foldl_reverse_digits]; exact hn)
    rw [foldl_reverse_digits] at hl
    rw [← hf] at hl
    exact hl

theorem toInt64_of_range (i : Int) (h1 : -2 ^ 63 ≤ i) (h2 : i < 2 ^ 63) : toInt64 i = i := by
  unfold toInt64
  have : (i + 2 ^ 63) % 2 ^ 64 = i + 2 ^ 63 := by
    apply Int.emod_eq_of_lt <;> omega
  omega

/-- The first character of `formatNat n` is neither `+` nor `-`. -/
theorem formatNat_head (n : Nat) :
    ∃ c cs, formatNat n = c :: cs ∧ c ≠ '+' ∧ c ≠ '-' := by
  cases h : formatNat n with
  | nil => exact absurd h (formatNat_ne_nil n)
  | cons c cs =>
    obtain ⟨d, hd, rfl⟩ := formatNat_digit n c (by simp [h])
    refine ⟨_, cs, rfl, ?_, ?_⟩ <;> interval_cases d <;> decide

theorem parseInt_minus (body : Str) (un : Nat) (hu : parseUint body = .ok un)
    (hle : un ≤ 2 ^ 63) : parseInt ('-' :: body) = .ok (-(un : Int)) := by
  have hle2 : ¬ (9223372036854775808 < un) := by omega
  have e : toInt64 (-toInt64 (un : Int)) = -(un : Int) := by
    unfold toInt64
    omega
  simp [parseInt, hu, hle2, e]

theorem parseInt_unsigned (c : Char) (cs : Str) (un : Nat) (hp : c ≠ '+') (hm : c ≠ '-')
    (hu : parseUint (c :: cs) = .ok un) (hlt : un < 2 ^ 63) :
    parseInt (c :: cs) = .ok (un : Int) := by
  have hlt2 : un < 9223372036854775808 := by omega
  have e : toInt64 (un : Int) = (un : Int) := by
    unfold toInt64
    omega
  simp [parseInt, hp, hm, hu, hlt2, e]

/-- The call `strconv.ParseInt` reads back what `%d` prints, for every `int64`. -/
theorem parseInt_formatInt (i : Int) (h1 : -2 ^ 63 ≤ i) (h2 : i < 2 ^ 63) :
    parseInt (formatInt i) = .ok i := by
  have hm := maxUint64_eq
  by_cases hneg : i < 0
  · have hu : parseUint (formatNat i.natAbs) = .ok i.natAbs :=
      parseUint_formatNat _ (by omega)
    have h := parseInt_minus _ _ hu (by omega)
    have habs : -(i.natAbs : Int) = i := by omega
    rw [habs] at h
    simpa [formatInt, hneg] using h
  · obtain ⟨c, cs, hc, hp, hm2⟩ := formatNat_head i.natAbs
    have hu : parseUint (c :: cs) = .ok i.natAbs := by
      rw [← hc]
      exact parseUint_formatNat _ (by omega)
    have h := parseInt_unsigned c cs _ hp hm2 hu (by omega)
    have habs : (i.natAbs : Int) = i := by omega
    rw [habs] at h
    simpa [formatInt, hneg, hc] using h

theorem normalize_append (env : Env) (a b : Str) :
    normalize env (a ++ b) = normalize env a ++ normalize env b := by
  simp [normalize, toLower, removeAll]

/-- Every character of `formatInt i` is a decimal digit or the sign `-`. -/
theorem formatInt_chars (i : Int) (c : Char) (hc : c ∈ formatInt i) :
    c = '-' ∨ ∃ d, d < 10 ∧ c = Char.ofNat (48 + d) := by
  unfold formatInt at hc
  split at hc
  · rcases List.mem_cons.1 hc with h | h
    · exact Or.inl h
    · exact Or.inr (formatNat_digit _ c h)
  · exact Or.inr (formatNat_digit _ c hc)

theorem normalize_idChars (env : Env) (s : Str)
    (hs : ∀ c ∈ s, c = '-' ∨ ∃ d, d < 10 ∧ c = Char.ofNat (48 + d)) :
    normalize env s = s := by
  induction s with
  | nil => rfl
  | cons c s ih =>
    have h1 : normalize env [c] = [c] := by
      rcases hs c (by simp) with h | ⟨d, hd, h⟩
      · subst h
        rfl
      · subst h
        interval_cases d <;> rfl
    have h2 := ih (fun x hx => hs x (by simp [hx]))
    have h3 := normalize_append env [c] s
    simp only [List.singleton_append] at h3
    rw [h3, h1, h2]
    rfl

theorem idChars_no_space (s : Str)
    (hs : ∀ c ∈ s, c = '-' ∨ ∃ d, d < 10 ∧ c = Char.ofNat (48 + d)) : ' ' ∉ s := by
  intro hmem
  rcases hs _ hmem with h | ⟨d, hd, h⟩
  · exact absurd h (by decide)
  · interval_cases d <;> exact absurd h (by decide)

theorem splitSpace_of_no_space (s : Str) (h : ' ' ∉ s) : splitSpace s = [s] := by
  induction s with
  | nil => rfl
  | cons c s ih =>
    have hc : c ≠ ' ' := fun e => h (by simp [e])
    have hs : ' ' ∉ s := fun e => h (by simp [e])
    simp [splitSpace, hc, ih hs]

theorem splitSpace_append_space (a b : Str) (h : ' ' ∉ a) :
    splitSpace (a ++ ' ' :: b) = a :: splitSpace b := by
  induction a with
  | nil => simp [splitSpace]
  | cons c a ih =>
    have hc : c ≠ ' ' := fun e => h (by simp [e])
    have ha : ' ' ∉ a := fun e => h (by simp [e])
    simp [splitSpace, hc, ih ha]

/-- Tokens before the first `kill` are skipped by the loop of `comKill`. -/
theorem killScan_skip (pre rest : List Str) (hpre : "kill".toList ∉ pre) :
    killScan [] [] (pre ++ rest) = killScan [] [] rest := by
  induction pre with
  | nil => rfl
  | cons t pre ih =>
    have ht : t ≠ "kill".toList := fun e => hpre (e ▸ List.mem_cons_self _ _)
    have hp : "kill".toList ∉ pre := fun e => hpre (List.mem_cons_of_mem _ e)
    simp only [List.cons_append, killScan]
    rw [if_neg (fun h => ht h.2), if_neg (by simp)]
    exact ih hp

/-- After the first `kill` the loop takes the next token, or none at the end. -/
theorem killScan_kill (post : List Str) :
    killScan [] [] ("kill".toList :: post) = ("kill".toList, post.headD []) := by
  cases post with
  | nil => simp [killScan]
  | cons t post => simp [killScan]

theorem killScan_of_kill (pre post : List Str) (hpre : "kill".toList ∉ pre) :
    killScan [] [] (pre ++ "kill".toList :: post) = ("kill".toList, post.headD []) := by
  rw [killScan_skip pre _ hpre, killScan_kill]

theorem killScan_no_kill (tokens : List Str) (h : "kill".toList ∉ tokens) :
    killScan [] [] tokens = ([], []) := by
  have := killScan_skip tokens [] h
  simpa [killScan] using this

/-- The result of `comKill` on a text without a token `kill`. -/
theorem comKill_no_kill (env : Env) (this : ServerHandler) (query : Str)
    (h : "kill".toList ∉ splitSpace (normalize env query)) :
    (this.comKill env query).handler = this
    ∧ (this.comKill env query).ret = { rs := none, err := none, ok := false }
    ∧ (this.comKill env query).events = [] := by
  simp [ServerHandler.comKill, killScan_no_kill _ h]

/-- The result of `comKill` on a text with a token `kill`, by the token after the first one. -/
theorem comKill_of_kill (env : Env) (this : ServerHandler) (query : Str) (pre post : List Str)
    (htok : splitSpace (normalize env query) = pre ++ "kill".toList :: post)
    (hpre : "kill".toList ∉ pre) :
    this.comKill env query =
      match parseInt (post.headD []) with
      | .error err =>
        { handler := this, ret := { rs := none, err := some err, ok := true }, events := [] }
      | .ok id =>
        match (this.getConnectorById id).ret with
        | none =>
          { handler := this
            ret := { rs := none
                     err := some (Error.new ("no connection of :".toList ++ formatInt id))
                     ok := true }
            events := [Event.lock, Event.mapAccess, Event.unlock] }
        | some c =>
          { handler := this
            ret := { rs := some { Fields := [], RowsAffected := 1, InsertID := 0, Rows := [] }
                     err := env.close c
                     ok := true }
            events := [Event.lock, Event.mapAccess, Event.unlock, Event.close c] } := by
  unfold ServerHandler.comKill
  simp only [htok, killScan_of_kill pre post hpre]
  cases parseInt (post.headD []) with
  | error e => simp
  | ok id =>
    simp only []
    cases hg : (this.getConnectorById id).ret <;> simp [hg, ServerHandler.getConnectorById]

/-- The tokens of `kw ++ " " ++ formatInt i` for a keyword that lower-cases to `kill`. -/
theorem tokens_kill_id (env : Env) (kw : Str) (hkw : normalize env kw = "kill".toList)
    (i : Int) :
    splitSpace (normalize env (kw ++ ' ' :: formatInt i))
      = [] ++ "kill".toList :: [formatInt i] := by
  have h1 : normalize env (' ' :: formatInt i) = ' ' :: formatInt i := by
    have h := normalize_append env [' '] (formatInt i)
    simp only [List.singleton_append] at h
    rw [h, normalize_idChars env _ (formatInt_chars i)]
    rfl
  rw [normalize_append, hkw, h1, splitSpace_append_space _ _ (by decide),
    splitSpace_of_no_space _ (idChars_no_space _ (formatInt_chars i))]
  rfl

/-! ## Lemmas on the two patterns -/

theorem ends_cat_lit_cons (c x : Char) (r : Regexp) (b : Bool) (t : Str) :
    (Regexp.cat (.lit c) r).ends (b, x :: t) = if x = c then r.ends (false, t) else [] := by
  by_cases h : x = c <;> simp [Regexp.ends, h]

theorem ends_cat_lit_nil (c : Char) (r : Regexp) (b : Bool) :
    (Regexp.cat (.lit c) r).ends (b, []) = [] := by
  simp [Regexp.ends]

/-- A pattern that starts with `^` can only match from the beginning of the text. -/
theorem MatchString_beginText (r : Regexp) (s : Str) :
    (Regexp.cat .beginText r).MatchString s = !(r.ends (true, s)).isEmpty := by
  have h0 : (Regexp.cat .beginText r).ends (true, s) = r.ends (true, s) := by
    simp [Regexp.ends]
  have hpos : ∀ i : Nat, i ≠ 0 →
      (Regexp.cat .beginText r).ends (i == 0, s.drop i) = [] := by
    intro i hi
    have : (i == 0) = false := by simpa using hi
    simp [Regexp.ends, this]
  rw [Bool.eq_iff_iff]
  unfold Regexp.MatchString
  rw [List.any_eq_true]
  constructor
  · rintro ⟨i, _, hi⟩
    by_cases h : i = 0
    · subst h
      simpa [h0] using hi
    · rw [hpos i h] at hi
      simp at hi
  · intro h
    refine ⟨0, by simp, ?_⟩
    simpa [h0] using h

/-- What an iteration of `.` consumes: a stretch without a newline. -/
theorem starLoop_any_sound (fuel : Nat) (p q : Pos)
    (hq : q ∈ starLoop Regexp.anyCharNotNL.ends fuel p) :
    ∃ body : Str, p.2 = body ++ q.2 ∧ '\n' ∉ body := by
  induction fuel generalizing p with
  | zero =>
    simp only [starLoop, List.mem_singleton] at hq
    exact ⟨[], by simp [hq], by simp⟩
  | succ fuel ih =>
    simp only [starLoop, List.mem_cons, List.mem_flatMap, List.mem_filter] at hq
    rcases hq with hq | ⟨p1, ⟨hp1, _⟩, hq1⟩
    · exact ⟨[], by simp [hq], by simp⟩
    · obtain ⟨b, l⟩ := p
      cases l with
      | nil => simp [Regexp.ends] at hp1
      | cons x t =>
        by_cases hx : x = '\n'
        · simp [Regexp.ends, hx] at hp1
        · simp only [Regexp.ends, hx, if_false, List.mem_singleton] at hp1
          subst hp1
          obtain ⟨body, hb, hn⟩ := ih _ hq1
          refine ⟨x :: body, by simpa using hb, ?_⟩
          intro hmem
          rcases List.mem_cons.1 hmem with h | h
          · exact hx h.symm
          · exact hn h

/-- An iteration of `.` can consume any stretch without a newline. -/
theorem starLoop_any_complete (body t : Str) (hn : '\n' ∉ body) (b : Bool) (fuel : Nat)
    (hfuel : (body ++ t).length ≤ fuel) :
    ∃ b1 : Bool, (b1, t) ∈ starLoop Regexp.anyCharNotNL.ends fuel (b, body ++ t) := by
  induction body generalizing b fuel with
  | nil =>
    refine ⟨b, ?_⟩
    cases fuel <;> simp [starLoop]
  | cons x body ih =>
    have hx : x ≠ '\n' := fun e => hn (e ▸ List.mem_cons_self _ _)
    have hb : '\n' ∉ body := fun e => hn (List.mem_cons_of_mem _ e)
    cases fuel with
    | zero => simp at hfuel
    | succ fuel =>
      obtain ⟨b1, h1⟩ := ih hb false fuel (by simpa using hfuel)
      refine ⟨b1, ?_⟩
      simp only [starLoop, List.mem_cons, List.mem_flatMap, List.mem_filter]
      refine Or.inr ⟨(false, body ++ t), ⟨?_, ?_⟩, h1⟩
      · simp [Regexp.ends, hx]
      · simp

theorem not_isEmpty_iff {α : Type} (l : List α) : (!l.isEmpty) = true ↔ ∃ a, a ∈ l := by
  cases l <;> simp

theorem mem_ends_cat (r k : Regexp) (p e : Pos) :
    e ∈ (Regexp.cat r k).ends p ↔ ∃ q, q ∈ r.ends p ∧ e ∈ k.ends q := by
  simp [Regexp.ends, List.mem_flatMap]

/-- What `.+` consumes: a non-empty stretch without a newline. -/
theorem plus_any_sound (b : Bool) (l : Str) (q : Pos)
    (hq : q ∈ (Regexp.plus .anyCharNotNL).ends (b, l)) :
    ∃ body : Str, body ≠ [] ∧ '\n' ∉ body ∧ l = body ++ q.2 := by
  simp only [Regexp.ends, List.mem_flatMap] at hq
  obtain ⟨p1, hp1, hq1⟩ := hq
  cases l with
  | nil => simp at hp1
  | cons x t =>
    by_cases hx : x = '\n'
    · simp [hx] at hp1
    · simp only [hx, if_false, List.mem_singleton] at hp1
      subst hp1
      obtain ⟨body, hb, hnl⟩ := starLoop_any_sound _ _ _ hq1
      simp only at hb
      refine ⟨x :: body, by simp, ?_, by simp [hb]⟩
      intro hmem
      rcases List.mem_cons.1 hmem with h | h
      · exact hx h.symm
      · exact hnl h

/-- The end `\*\/$` of the comment pattern matches the text `*/` only. -/
theorem comment_tail (b : Bool) (l : Str) (e : Pos)
    (h : e ∈ (Regexp.cat (.lit '*') (.cat (.lit '/') .endText)).ends (b, l)) :
    l = ['*', '/'] := by
  cases l with
  | nil => simp [ends_cat_lit_nil] at h
  | cons y0 l =>
    rw [ends_cat_lit_cons] at h
    by_cases hy0 : y0 = '*'
    swap
    · simp [hy0] at h
    rw [if_pos hy0] at h
    cases l with
    | nil => simp [ends_cat_lit_nil] at h
    | cons y1 l =>
      rw [ends_cat_lit_cons] at h
      by_cases hy1 : y1 = '/'
      swap
      · simp [hy1] at h
      rw [if_pos hy1] at h
      cases l with
      | nil => rw [hy0, hy1]
      | cons y2 l => simp [Regexp.ends] at h

/-- The texts `^\/\*.+?\*\/$` matches: `/*`, a non-empty stretch without a
newline, `*/`. -/
theorem reComment_MatchString_iff (s : Str) :
    reComment.MatchString s = true
      ↔ ∃ body : Str, body ≠ [] ∧ '\n' ∉ body ∧ s = '/' :: '*' :: (body ++ ['*', '/']) := by
  unfold reComment
  rw [MatchString_beginText]
  constructor
  · intro h
    obtain ⟨e, he⟩ := (not_isEmpty_iff _).1 h
    cases s with
    | nil => simp [ends_cat_lit_nil] at he
    | cons c0 s =>
      rw [ends_cat_lit_cons] at he
      by_cases hc0 : c0 = '/'
      swap
      · simp [hc0] at he
      rw [if_pos hc0] at he
      cases s with
      | nil => simp [ends_cat_lit_nil] at he
      | cons c1 s =>
        rw [ends_cat_lit_cons] at he
        by_cases hc1 : c1 = '*'
        swap
        · simp [hc1] at he
        rw [if_pos hc1] at he
        subst hc0 hc1
        obtain ⟨q, hq, he2⟩ := (mem_ends_cat _ _ _ _).1 he
        obtain ⟨body, hne, hnl, hb⟩ := plus_any_sound _ _ _ hq
        obtain ⟨qb, ql⟩ := q
        have hql := comment_tail qb ql e he2
        subst hql
        exact ⟨body, hne, hnl, by rw [hb]⟩
  · rintro ⟨body, hne, hnl, rfl⟩
    cases body with
    | nil => exact absurd rfl hne
    | cons x body =>
      have hx : x ≠ '\n' := fun e => hnl (e ▸ List.mem_cons_self _ _)
      have hb : '\n' ∉ body := fun e => hnl (List.mem_cons_of_mem _ e)
      obtain ⟨b1, h1⟩ := starLoop_any_complete body ['*', '/'] hb false
        (body ++ ['*', '/']).length (le_refl _)
      have hmem : ((false, []) : Pos) ∈ (Regexp.cat (.lit '/') (.cat (.lit '*')
          (.cat (.plus .anyCharNotNL) (.cat (.lit '*') (.cat (.lit '/') .endText))))).ends
          (true, '/' :: '*' :: (x :: body ++ ['*', '/'])) := by
        rw [ends_cat_lit_cons, if_pos rfl, ends_cat_lit_cons, if_pos rfl]
        simp only [Regexp.ends, List.mem_flatMap]
        refine ⟨(b1, ['*', '/']), ⟨(false, body ++ ['*', '/']), ?_, h1⟩, ?_⟩
        · simp [hx]
        · simp
      exact (not_isEmpty_iff _).2 ⟨_, hmem⟩

/-- The pattern `^set.*collate` matches a text that starts with `set` and has
`collate` later with no newline in between. -/
theorem reSetCollate_MatchString_of_shape (mid rest : Str) (hn : '\n' ∉ mid) :
    reSetCollate.MatchString ("set".toList ++ mid ++ "collate".toList ++ rest) = true := by
  unfold reSetCollate
  rw [MatchString_beginText]
  obtain ⟨b1, h1⟩ := starLoop_any_complete mid ("collate".toList ++ rest) hn false
    (mid ++ ("collate".toList ++ rest)).length (le_refl _)
  have hmem : ((false, rest) : Pos) ∈ (Regexp.cat (.lit 's') (.cat (.lit 'e') (.cat (.lit 't')
      (.cat (.star .anyCharNotNL) (.cat (.lit 'c') (.cat (.lit 'o') (.cat (.lit 'l')
      (.cat (.lit 'l') (.cat (.lit 'a') (.cat (.lit 't') (.lit 'e'))))))))))).ends
      (true, 's' :: 'e' :: 't' :: (mid ++ ("collate".toList ++ rest))) := by
    rw [ends_cat_lit_cons, if_pos rfl, ends_cat_lit_cons, if_pos rfl, ends_cat_lit_cons,
      if_pos rfl]
    simp only [Regexp.ends, List.mem_flatMap]
    refine ⟨(b1, "collate".toList ++ rest), h1, ?_⟩
    simp
  have e : "set".toList ++ mid ++ "collate".toList ++ rest
      = 's' :: 'e' :: 't' :: (mid ++ ("collate".toList ++ rest)) := by
    simp
  rw [e]
  exact (not_isEmpty_iff _).2 ⟨_, hmem⟩

/-- The comment pattern does not match a text whose first character is not `/`. -/
theorem reComment_of_head (c : Char) (t : Str) (h : c ≠ '/') :
    reComment.MatchString (c :: t) = false := by
  unfold reComment
  rw [MatchString_beginText, ends_cat_lit_cons, if_neg h]
  rfl

/-- The set/collate pattern does not match a text whose first character is not `s`. -/
theorem reSetCollate_of_head (c : Char) (t : Str) (h : c ≠ 's') :
    reSetCollate.MatchString (c :: t) = false := by
  unfold reSetCollate
  rw [MatchString_beginText, ends_cat_lit_cons, if_neg h]
  rfl

/-! ## Lemmas on `ComQuery` -/

/-- The branch of `ComQuery` for a rejected text that matches neither pattern. -/
theorem ComQuery_fallback (env : Env) (this : ServerHandler) (mc : Connector) (query : Str)
    (callback : Option Result → Option Error) (e : Error)
    (hp : env.parse query = .error e)
    (h1 : reComment.MatchString query = false)
    (h2 : reSetCollate.MatchString query = false) :
    this.ComQuery env (.connector mc) query callback =
      if (this.comKill env query).ret.ok ∨ (this.comKill env query).ret.err ≠ none then
        match (this.comKill env query).ret.err with
        | some killErr =>
          { handler := (this.comKill env query).handler, ret := some killErr
            events := [Event.upActiveTime mc, Event.logQuery query, Event.parse query]
              ++ (this.comKill env query).events }
        | none =>
          { handler := (this.comKill env query).handler, ret := none
            events := [Event.upActiveTime mc, Event.logQuery query, Event.parse query]
              ++ (this.comKill env query).events
              ++ [Event.callback (this.comKill env query).ret.rs] }
      else
        { handler := (this.comKill env query).handler, ret := none
          events := [Event.upActiveTime mc, Event.logQuery query, Event.parse query]
            ++ (this.comKill env query).events } := by
  simp only [ServerHandler.ComQuery, ServerHandler.ComQueryBody, ServerHandler.isBlacklistQuery, regexpCompile, hp, h1, h2]
  simp

/-- The branch of `ComQuery` for a rejected text that matches a no-op pattern. -/
theorem ComQuery_noop (env : Env) (this : ServerHandler) (mc : Connector) (query : Str)
    (callback : Option Result → Option Error) (e : Error)
    (hp : env.parse query = .error e)
    (hm : reComment.MatchString query = true ∨ reSetCollate.MatchString query = true) :
    (this.ComQuery env (.connector mc) query callback).handler = this
    ∧ (this.ComQuery env (.connector mc) query callback).ret = none
    ∧ (this.ComQuery env (.connector mc) query callback).events
      = [Event.upActiveTime mc, Event.logQuery query, Event.parse query,
          Event.callback (some Result.zero)] := by
  simp only [ServerHandler.ComQuery, ServerHandler.ComQueryBody, ServerHandler.isBlacklistQuery, regexpCompile, hp]
  by_cases h1 : reComment.MatchString query = true
  · simp [h1]
  · have h2 : reSetCollate.MatchString query = true := hm.resolve_left h1
    simp [h1, h2]

theorem formatInt_natCast (n : Nat) : formatInt (n : Int) = formatNat n := by
  simp [formatInt]

/-! ## The registry operations -/

/-- C2: after `addConnector` registers `A` under an identifier and a later
`addConnector` registers a different `B` under the same identifier, both
lookups return `B`, the second registration closes exactly `A`, over the two
registrations `A` is closed exactly once and `B` never (neither being the
connector found under the identifier before the first registration), and the
entries of other identifiers are unchanged. -/
theorem C2_addConnector_twice (this : ServerHandler) (c1 c2 : Conn) (A B : Connector)
    (hid : c2.ConnectionID = c1.ConnectionID) (h32 : c1.ConnectionID < 2 ^ 32)
    (hAB : A ≠ B) :
    let r1 := this.addConnector c1 A
    let r2 := r1.handler.addConnector c2 B
    (r2.handler.getConnector c2).ret = some B
    ∧ (r2.handler.getConnectorById (c2.ConnectionID : Int)).ret = some B
    ∧ closes r2.events = [A]
    ∧ ((this.getConnector c1).ret ≠ some A → (closes (r1.events ++ r2.events)).count A = 1)
    ∧ ((this.getConnector c1).ret ≠ some B → (closes (r1.events ++ r2.events)).count B = 0)
    ∧ (∀ k : Nat, k ≠ c1.ConnectionID →
        List.lookup k r2.handler.connectorMap = List.lookup k this.connectorMap) := by
  intro r1 r2
  have hr1 : r1.handler = { connectorMap := this.connectorMap.assign c1.ConnectionID (some A) } :=
    addConnector_handler this c1 A
  have hr2 : r2.handler
      = { connectorMap := r1.handler.connectorMap.assign c2.ConnectionID (some B) } :=
    addConnector_handler r1.handler c2 B
  have hc2 : closes r2.events = [A] := by
    show closes (r1.handler.addConnector c2 B).events = [A]
    rw [addConnector_closes, hr1, hid]
    simp only [ConnectorMap.lookup_assign_self]
  have hc1 := addConnector_closes this c1 A
  have hg := getConnector_ret this c1
  refine ⟨?_, ?_, hc2, ?_, ?_, ?_⟩
  · rw [getConnector_ret, hr2]
    simp [ConnectorMap.lookup_assign_self]
  · rw [getConnectorById_ret, hr2, toUint32_natCast _ (hid ▸ h32)]
    simp [ConnectorMap.lookup_assign_self]
  · intro hfresh
    rw [closes_append, hc2, List.count_append]
    have h0 : (closes r1.events).count A = 0 := by
      rw [hc1]
      cases hl : List.lookup c1.ConnectionID this.connectorMap with
      | none => simp
      | some v =>
        cases v with
        | none => simp
        | some old =>
          have : old ≠ A := by
            intro h
            apply hfresh
            rw [hg, hl, h]
            rfl
          exact List.count_eq_zero.2 (by simpa using fun h => this h.symm)
    rw [h0]
    simp
  · intro hfresh
    rw [closes_append, hc2, List.count_append]
    have h0 : (closes r1.events).count B = 0 := by
      rw [hc1]
      cases hl : List.lookup c1.ConnectionID this.connectorMap with
      | none => simp
      | some v =>
        cases v with
        | none => simp
        | some old =>
          have : old ≠ B := by
            intro h
            apply hfresh
            rw [hg, hl, h]
            rfl
          exact List.count_eq_zero.2 (by simpa using fun h => this h.symm)
    have h1 : List.count B [A] = 0 :=
      List.count_eq_zero.2 (by simpa using fun h : B = A => hAB h.symm)
    rw [h0, h1]
  · intro k hk
    rw [hr2, hr1, hid]
    simp only []
    rw [ConnectorMap.lookup_assign_ne _ _ _ _ hk, ConnectorMap.lookup_assign_ne _ _ _ _ hk]

/-- C2 at a registry holding sessions 7 and 9: session 7 is registered twice. -/
theorem C2_addConnector_twice_witness :
    let this : ServerHandler := twoSessions
    let r1 := this.addConnector ⟨7⟩ ⟨3⟩
    let r2 := r1.handler.addConnector ⟨7⟩ ⟨4⟩
    (r2.handler.getConnector ⟨7⟩).ret = some ⟨4⟩
    ∧ (r2.handler.getConnectorById 7).ret = some ⟨4⟩
    ∧ closes r2.events = [⟨3⟩]
    ∧ (closes (r1.events ++ r2.events)).count ⟨3⟩ = 1
    ∧ (closes (r1.events ++ r2.events)).count ⟨4⟩ = 0
    ∧ List.lookup 9 r2.handler.connectorMap = some (some ⟨2⟩) := by
  have h := C2_addConnector_twice twoSessions ⟨7⟩ ⟨7⟩ ⟨3⟩ ⟨4⟩ rfl (by decide) (by decide)
  exact ⟨h.1, h.2.1, h.2.2.1, h.2.2.2.1 (by decide), h.2.2.2.2.1 (by decide),
    h.2.2.2.2.2 9 (by decide)⟩

/-- C3: `delConnector` on an absent identifier leaves the map as it is and
closes nothing; on an identifier that maps to connector `conn` it leaves a map
without the identifier, closes exactly `conn`, once, and leaves the entries of
other identifiers unchanged. -/
theorem C3_delConnector_remove (this : ServerHandler) (c : Conn) :
    let r := this.delConnector c
    (List.lookup c.ConnectionID this.connectorMap = none →
        r.handler = this ∧ closes r.events = [])
    ∧ (∀ conn : Connector,
        List.lookup c.ConnectionID this.connectorMap = some (some conn) →
          List.lookup c.ConnectionID r.handler.connectorMap = none
          ∧ (r.handler.getConnector c).ret = none
          ∧ closes r.events = [conn]
          ∧ (closes r.events).count conn = 1
          ∧ ∀ k : Nat, k ≠ c.ConnectionID →
              List.lookup k r.handler.connectorMap = List.lookup k this.connectorMap) := by
  intro r
  have hh : r.handler = { connectorMap := this.connectorMap.delete c.ConnectionID } :=
    delConnector_handler this c
  have hc := delConnector_closes this c
  constructor
  · intro habs
    constructor
    · rw [hh, ConnectorMap.delete_of_lookup_none _ _ habs]
    · rw [hc, habs]
  · intro conn hpres
    have hcl : closes r.events = [conn] := by rw [hc, hpres]
    refine ⟨?_, ?_, hcl, ?_, ?_⟩
    · rw [hh]
      exact ConnectorMap.lookup_delete_self _ _
    · rw [getConnector_ret, hh]
      simp [ConnectorMap.lookup_delete_self]
    · rw [hcl]
      simp
    · intro k hk
      rw [hh]
      exact ConnectorMap.lookup_delete_ne _ _ _ hk

/-- C3 at a registry holding sessions 7 and 9: removal of the absent 8 and of
the present 7. -/
theorem C3_delConnector_remove_witness :
    let this : ServerHandler := twoSessions
    ((this.delConnector ⟨8⟩).handler = this ∧ closes (this.delConnector ⟨8⟩).events = [])
    ∧ List.lookup 7 (this.delConnector ⟨7⟩).handler.connectorMap = none
    ∧ closes (this.delConnector ⟨7⟩).events = [⟨1⟩]
    ∧ List.lookup 9 (this.delConnector ⟨7⟩).handler.connectorMap = some (some ⟨2⟩) := by
  have h8 := (C3_delConnector_remove twoSessions ⟨8⟩).1 (by decide)
  have h7 := (C3_delConnector_remove twoSessions ⟨7⟩).2 ⟨1⟩ (by decide)
  exact ⟨h8, h7.1, h7.2.2.1, h7.2.2.2.2 9 (by decide)⟩

/-! ## Dispatch of a rejected statement -/

/-- The result of `comKill` on a keyword that lower-cases to `kill`, a space and
the decimal form of an `int64`. -/
theorem comKill_kill_id (env : Env) (this : ServerHandler) (kw : Str)
    (hkw : normalize env kw = "kill".toList) (i : Int) (h1 : -2 ^ 63 ≤ i) (h2 : i < 2 ^ 63) :
    this.comKill env (kw ++ ' ' :: formatInt i) =
      match (this.getConnectorById i).ret with
      | none =>
        { handler := this
          ret := { rs := none
                   err := some (Error.new ("no connection of :".toList ++ formatInt i))
                   ok := true }
          events := [Event.lock, Event.mapAccess, Event.unlock] }
      | some c =>
        { handler := this
          ret := { rs := some { Fields := [], RowsAffected := 1, InsertID := 0, Rows := [] }
                   err := env.close c
                   ok := true }
          events := [Event.lock, Event.mapAccess, Event.unlock, Event.close c] } := by
  rw [comKill_of_kill env this _ [] [formatInt i] (tokens_kill_id env kw hkw i) (by simp)]
  simp only [List.headD_cons, parseInt_formatInt i h1 h2]

/-- C1 (the code departs from the claim): for a text the parser rejects with
error `e`, that matches neither pattern and has no token `kill`, `comKill`
reports "not a kill command", the callback is not invoked, and `ComQuery`
returns nil, not `e`: the `err` it returns is the one of `regexp.Compile`. -/
theorem C1_parse_error_not_returned (env : Env) (this : ServerHandler) (mc : Connector)
    (query : Str) (callback : Option Result → Option Error) (e : Error)
    (hp : env.parse query = .error e)
    (h1 : reComment.MatchString query = false)
    (h2 : reSetCollate.MatchString query = false)
    (hk : "kill".toList ∉ splitSpace (normalize env query)) :
    (this.comKill env query).ret = { rs := none, err := none, ok := false }
    ∧ (this.ComQuery env (.connector mc) query callback).ret = none
    ∧ (this.ComQuery env (.connector mc) query callback).ret ≠ some e
    ∧ callbacks (this.ComQuery env (.connector mc) query callback).events = [] := by
  obtain ⟨k1, k2, k3⟩ := comKill_no_kill env this query hk
  rw [ComQuery_fallback env this mc query callback e hp h1 h2, k2, k3]
  simp [callbacks]

/-- C1 at the text `select from`, rejected by the parser: `ComQuery` returns nil. -/
theorem C1_parse_error_not_returned_witness :
    (NewServerHandler.comKill rejectAll "select from".toList).ret
      = { rs := none, err := none, ok := false }
    ∧ (NewServerHandler.ComQuery rejectAll (.connector ⟨1⟩) "select from".toList okCallback).ret
      = none
    ∧ (NewServerHandler.ComQuery rejectAll (.connector ⟨1⟩) "select from".toList okCallback).ret
      ≠ some (Error.collaborator "syntax error".toList)
    ∧ callbacks
        (NewServerHandler.ComQuery rejectAll (.connector ⟨1⟩) "select from".toList
          okCallback).events = [] :=
  C1_parse_error_not_returned rejectAll NewServerHandler ⟨1⟩ "select from".toList okCallback
    (Error.collaborator "syntax error".toList) rfl (by decide) (by decide) (by decide)

/-- C4: with identifier `n < 2^32` registered for connector `c`, the rejected
text `KILL <n>` makes `ComQuery` close `c`, once, and no other connector; when
`Close` succeeds the callback is invoked once, with a result of one affected
row, and `ComQuery` returns nil; when `Close` fails with `e1`, `ComQuery`
returns `e1`. -/
theorem C4_kill_registered (env : Env) (this : ServerHandler) (mc : Connector)
    (callback : Option Result → Option Error) (n : Nat) (c : Connector) (e : Error)
    (hn : n < 2 ^ 32)
    (hreg : List.lookup n this.connectorMap = some (some c))
    (hp : env.parse ("KILL ".toList ++ formatNat n) = .error e) :
    let r := this.ComQuery env (.connector mc) ("KILL ".toList ++ formatNat n) callback
    closes r.events = [c]
    ∧ (closes r.events).count c = 1
    ∧ (∀ c1, c1 ≠ c → (closes r.events).count c1 = 0)
    ∧ (env.close c = none →
        r.ret = none
        ∧ callbacks r.events = [some { Fields := [], RowsAffected := 1, InsertID := 0, Rows := [] }]
        ∧ ∃ rs : Result, callbacks r.events = [some rs] ∧ rs.RowsAffected = 1)
    ∧ (∀ e1, env.close c = some e1 → r.ret = some e1 ∧ callbacks r.events = []) := by
  intro r
  have hq : "KILL ".toList ++ formatNat n = "KILL".toList ++ ' ' :: formatInt (n : Int) := by
    simp [formatInt_natCast]
  have hg : (this.getConnectorById (n : Int)).ret = some c := by
    rw [getConnectorById_ret, toUint32_natCast n hn, hreg]
    rfl
  have hk := comKill_kill_id env this "KILL".toList rfl (n : Int) (by omega) (by omega)
  rw [hg] at hk
  simp only at hk
  rw [← hq] at hk
  have hr : r = this.ComQuery env (.connector mc) ("KILL ".toList ++ formatNat n) callback := rfl
  rw [ComQuery_fallback env this mc _ callback e hp
    (reComment_of_head 'K' _ (by decide)) (reSetCollate_of_head 'K' _ (by decide)), hk] at hr
  have hcl : closes r.events = [c] := by
    rw [hr]
    cases hc : env.close c <;> simp [closes]
  refine ⟨hcl, ?_, ?_, ?_, ?_⟩
  · rw [hcl]
    simp
  · intro c1 hc1
    rw [hcl]
    exact List.count_eq_zero.2 (by simpa using hc1)
  · intro hc
    have h2 : callbacks r.events = [some { Fields := [], RowsAffected := 1, InsertID := 0, Rows := [] }] := by
      rw [hr]
      simp [hc, callbacks]
    refine ⟨?_, h2, _, h2, rfl⟩
    rw [hr]
    simp [hc]
  · intro e1 hc
    rw [hr]
    simp [hc, callbacks]

/-- C4 at session 7 of `twoSessions`, with a `Close` that succeeds and with one
that fails. -/
theorem C4_kill_registered_witness :
    (closes (twoSessions.ComQuery rejectAll (.connector ⟨2⟩)
        ("KILL ".toList ++ formatNat 7) okCallback).events = [⟨1⟩]
      ∧ (twoSessions.ComQuery rejectAll (.connector ⟨2⟩)
        ("KILL ".toList ++ formatNat 7) okCallback).ret = none
      ∧ callbacks (twoSessions.ComQuery rejectAll (.connector ⟨2⟩)
        ("KILL ".toList ++ formatNat 7) okCallback).events
        = [some { Fields := [], RowsAffected := 1, InsertID := 0, Rows := [] }])
    ∧ (closes (twoSessions.ComQuery rejectAllCloseFails (.connector ⟨2⟩)
        ("KILL ".toList ++ formatNat 7) okCallback).events = [⟨1⟩]
      ∧ (twoSessions.ComQuery rejectAllCloseFails (.connector ⟨2⟩)
        ("KILL ".toList ++ formatNat 7) okCallback).ret
        = some (Error.collaborator "close failed".toList)
      ∧ callbacks (twoSessions.ComQuery rejectAllCloseFails (.connector ⟨2⟩)
        ("KILL ".toList ++ formatNat 7) okCallback).events = []) := by
  have h := C4_kill_registered rejectAll twoSessions ⟨2⟩ okCallback 7 ⟨1⟩
    (Error.collaborator "syntax error".toList) (by decide) (by decide) rfl
  have g := C4_kill_registered rejectAllCloseFails twoSessions ⟨2⟩ okCallback 7 ⟨1⟩
    (Error.collaborator "syntax error".toList) (by decide) (by decide) rfl
  exact ⟨⟨h.1, (h.2.2.2.1 rfl).1, (h.2.2.2.1 rfl).2.1⟩,
    ⟨g.1, (g.2.2.2.2 _ rfl).1, (g.2.2.2.2 _ rfl).2⟩⟩

/-- C5 (the claim fails): after the successful `kill 7` on a registry that
holds session 7, the registry still holds session 7. -/
theorem C5_kill_keeps_entry :
    (twoSessions.comKill rejectAll "kill 7".toList).ret.ok = true
    ∧ (twoSessions.comKill rejectAll "kill 7".toList).ret.err = none
    ∧ closes (twoSessions.comKill rejectAll "kill 7".toList).events = [⟨1⟩]
    ∧ List.lookup 7 (twoSessions.comKill rejectAll "kill 7".toList).handler.connectorMap
      = some (some ⟨1⟩)
    ∧ ¬ (List.lookup 7 (twoSessions.comKill rejectAll "kill 7".toList).handler.connectorMap
      = none) := by
  decide

/-- C5 (amended): a kill is a lookup and a close, not a removal. With
identifier `n < 2^32` registered for connector `c`, `comKill` on `kill <n>`
looks `n` up under the lock, then closes `c`, once, reports one affected row
with the error of `Close`, and leaves the registry map as it was, `n` included. -/
theorem C5_kill_is_lookup_and_close (env : Env) (this : ServerHandler) (n : Nat)
    (c : Connector) (hn : n < 2 ^ 32)
    (hreg : List.lookup n this.connectorMap = some (some c)) :
    let r := this.comKill env ("kill ".toList ++ formatNat n)
    r.ret = { rs := some { Fields := [], RowsAffected := 1, InsertID := 0, Rows := [] }, err := env.close c, ok := true }
    ∧ r.events = [Event.lock, Event.mapAccess, Event.unlock, Event.close c]
    ∧ closes r.events = [c]
    ∧ r.handler = this
    ∧ List.lookup n r.handler.connectorMap = some (some c) := by
  intro r
  have hq : "kill ".toList ++ formatNat n = "kill".toList ++ ' ' :: formatInt (n : Int) := by
    simp [formatInt_natCast]
  have hg : (this.getConnectorById (n : Int)).ret = some c := by
    rw [getConnectorById_ret, toUint32_natCast n hn, hreg]
    rfl
  have hk := comKill_kill_id env this "kill".toList rfl (n : Int) (by omega) (by omega)
  rw [hg] at hk
  simp only at hk
  rw [← hq] at hk
  have hr : r = this.comKill env ("kill ".toList ++ formatNat n) := rfl
  rw [hk] at hr
  rw [hr]
  exact ⟨rfl, rfl, rfl, rfl, hreg⟩

/-- C5 (amended) at session 9 of `twoSessions`. -/
theorem C5_kill_is_lookup_and_close_witness :
    let r := twoSessions.comKill rejectAll ("kill ".toList ++ formatNat 9)
    closes r.events = [⟨2⟩] ∧ r.handler = twoSessions := by
  have h := C5_kill_is_lookup_and_close rejectAll twoSessions 9 ⟨2⟩ (by decide) (by decide)
  exact ⟨h.2.2.1, h.2.2.2.1⟩

/-- C6: for an `int64` `n` whose truncation to 32 bits is not a key of the
registry, `comKill` on `kill <n>` reports a recognized command with the error
`no connection of :<n>`, and `ComQuery`, the parser having rejected the text,
returns that error, without a callback, without a `Close`, the registry
unchanged. -/
theorem C6_kill_unknown_target (env : Env) (this : ServerHandler) (mc : Connector)
    (callback : Option Result → Option Error) (n : Int) (e : Error)
    (h1 : -2 ^ 63 ≤ n) (h2 : n < 2 ^ 63)
    (habs : List.lookup (toUint32 n) this.connectorMap = none)
    (hp : env.parse ("kill ".toList ++ formatInt n) = .error e) :
    let k := this.comKill env ("kill ".toList ++ formatInt n)
    let r := this.ComQuery env (.connector mc) ("kill ".toList ++ formatInt n) callback
    k.ret = { rs := none
              err := some (Error.new ("no connection of :".toList ++ formatInt n))
              ok := true }
    ∧ closes k.events = [] ∧ k.handler = this
    ∧ r.ret = some (Error.new ("no connection of :".toList ++ formatInt n))
    ∧ callbacks r.events = []
    ∧ closes r.events = []
    ∧ r.handler = this := by
  intro k r
  have hq : "kill ".toList ++ formatInt n = "kill".toList ++ ' ' :: formatInt n := by
    simp
  have hg : (this.getConnectorById n).ret = none := by
    rw [getConnectorById_ret, habs]
    rfl
  have hk := comKill_kill_id env this "kill".toList rfl n h1 h2
  rw [hg] at hk
  simp only at hk
  rw [← hq] at hk
  have hk2 : k = _ := hk
  have hr : r = this.ComQuery env (.connector mc) ("kill ".toList ++ formatInt n) callback := rfl
  rw [ComQuery_fallback env this mc _ callback e hp
    (reComment_of_head 'k' _ (by decide)) (reSetCollate_of_head 'k' _ (by decide)), hk] at hr
  simp only [Bool.true_eq_false, ne_eq, reduceCtorEq, not_false_eq_true, or_true,
    if_true] at hr
  rw [hk2, hr]
  simp [closes, callbacks]

/-- C6 at `kill 999999` on `twoSessions`. -/
theorem C6_kill_unknown_target_witness :
    let r := twoSessions.ComQuery rejectAll (.connector ⟨2⟩)
      ("kill ".toList ++ formatInt 999999) okCallback
    r.ret = some (Error.new ("no connection of :".toList ++ formatInt 999999))
    ∧ callbacks r.events = []
    ∧ closes r.events = []
    ∧ r.handler = twoSessions := by
  have h := C6_kill_unknown_target rejectAll twoSessions ⟨2⟩ okCallback 999999
    (Error.collaborator "syntax error".toList) (by decide) (by decide) (by decide) rfl
  exact ⟨h.2.2.2.1, h.2.2.2.2.1, h.2.2.2.2.2.1, h.2.2.2.2.2.2⟩

/-- C7 (the claim fails): the rejected text `/* kill abc */` has the token
`kill` followed by `abc`, which is no integer, and `comKill` reports a
malformed command on it; `ComQuery` takes the comment no-op before it reaches
`comKill`: it invokes the callback and returns nil. -/
theorem C7_comment_wrapped_kill :
    splitSpace (normalize rejectAll "/* kill abc */".toList)
      = ["/*".toList] ++ "kill".toList :: ["abc".toList, "*/".toList]
    ∧ "kill".toList ∉ ["/*".toList]
    ∧ parseInt "abc".toList
      = .error (Error.numError "ParseInt".toList "abc".toList .syntaxErr)
    ∧ (twoSessions.comKill rejectAll "/* kill abc */".toList).ret
      = { rs := none
          err := some (Error.numError "ParseInt".toList "abc".toList .syntaxErr)
          ok := true }
    ∧ (twoSessions.ComQuery rejectAll (.connector ⟨1⟩) "/* kill abc */".toList okCallback).ret
      = none
    ∧ callbacks
        (twoSessions.ComQuery rejectAll (.connector ⟨1⟩) "/* kill abc */".toList
          okCallback).events = [some Result.zero] :=
  ⟨by decide, by decide, rfl, by decide, by decide, by decide⟩

/-- C7 (amended): for a text whose tokens hold a `kill` and whose token after
the first `kill` is missing, empty or no base-10 `int64`, `comKill` returns no
result, an error and `true`, which is not the outcome `(nil, nil, false)` of
"not a kill command", and closes nothing; and when the parser rejects the text
and the text matches neither no-op pattern, `ComQuery` returns that error
without a callback and without a `Close`. -/
theorem C7_malformed_kill (env : Env) (this : ServerHandler) (mc : Connector)
    (callback : Option Result → Option Error) (query : Str) (pre post : List Str)
    (htok : splitSpace (normalize env query) = pre ++ "kill".toList :: post)
    (hpre : "kill".toList ∉ pre)
    (hbad : post = [] ∨ ∃ t rest, post = t :: rest ∧ (t = [] ∨ ∀ id, parseInt t ≠ .ok id)) :
    ∃ err : Error,
      (this.comKill env query).ret = { rs := none, err := some err, ok := true }
      ∧ (this.comKill env query).ret ≠ { rs := none, err := none, ok := false }
      ∧ (this.comKill env query).events = []
      ∧ (this.comKill env query).handler = this
      ∧ ∀ e : Error, env.parse query = .error e →
          reComment.MatchString query = false → reSetCollate.MatchString query = false →
          (this.ComQuery env (.connector mc) query callback).ret = some err
          ∧ callbacks (this.ComQuery env (.connector mc) query callback).events = []
          ∧ closes (this.ComQuery env (.connector mc) query callback).events = [] := by
  have hparse : ∃ err, parseInt (post.headD []) = .error err := by
    rcases hbad with h | ⟨t, rest, h, ht⟩
    · subst h
      exact ⟨_, rfl⟩
    · subst h
      rcases ht with ht | ht
      · subst ht
        exact ⟨_, rfl⟩
      · cases hpi : parseInt t with
        | error err => exact ⟨err, by simpa using hpi⟩
        | ok id => exact absurd hpi (ht id)
  obtain ⟨err, herr⟩ := hparse
  have hk := comKill_of_kill env this query pre post htok hpre
  rw [herr] at hk
  simp only at hk
  refine ⟨err, by rw [hk], by rw [hk]; simp, by rw [hk], by rw [hk], ?_⟩
  intro e hp h1 h2
  rw [ComQuery_fallback env this mc query callback e hp h1 h2, hk]
  simp [callbacks, closes]

/-- C7 (amended) at `KILL abc`, rejected by the parser. -/
theorem C7_malformed_kill_witness :
    ∃ err : Error,
      (twoSessions.comKill rejectAll "KILL abc".toList).ret
        = { rs := none, err := some err, ok := true }
      ∧ (twoSessions.ComQuery rejectAll (.connector ⟨1⟩) "KILL abc".toList okCallback).ret
        = some err
      ∧ callbacks
          (twoSessions.ComQuery rejectAll (.connector ⟨1⟩) "KILL abc".toList
            okCallback).events = [] := by
  obtain ⟨err, h1, _, _, _, h5⟩ := C7_malformed_kill rejectAll twoSessions ⟨1⟩ okCallback
    "KILL abc".toList [] ["abc".toList] (by decide) (by decide)
    (Or.inr ⟨"abc".toList, [], rfl, Or.inr (fun id h => by
      have h0 : parseInt "abc".toList
          = .error (Error.numError "ParseInt".toList "abc".toList .syntaxErr) := rfl
      rw [h0] at h
      cases h)⟩)
  have h6 := h5 (Error.collaborator "syntax error".toList) rfl (by decide) (by decide)
  exact ⟨err, h1, h6.1, h6.2.1⟩

/-- C8 (the claim fails): on the rejected text
`SET NAMES 'utf8' COLLATE 'utf8_unicode_ci'` the pattern `^set.*collate`, which
is in lower case, does not match, and the callback is not invoked. -/
theorem C8_upper_case_not_matched :
    reSetCollate.MatchString "SET NAMES 'utf8' COLLATE 'utf8_unicode_ci'".toList = false
    ∧ callbacks
        (twoSessions.ComQuery rejectAll (.connector ⟨1⟩)
          "SET NAMES 'utf8' COLLATE 'utf8_unicode_ci'".toList okCallback).events = []
    ∧ ¬ (callbacks
        (twoSessions.ComQuery rejectAll (.connector ⟨1⟩)
          "SET NAMES 'utf8' COLLATE 'utf8_unicode_ci'".toList okCallback).events
          = [some Result.zero]) := by
  decide

/-- C8 (amended): for a rejected text that starts with `set` in lower case and
has `collate` in lower case later on the same line, `ComQuery` invokes the
callback once, with the empty result, returns nil, executes nothing on the
connector and closes nothing. -/
theorem C8_set_collate_lower_case (env : Env) (this : ServerHandler) (mc : Connector)
    (callback : Option Result → Option Error) (mid rest : Str) (e : Error)
    (hn : '\n' ∉ mid)
    (hp : env.parse ("set".toList ++ mid ++ "collate".toList ++ rest) = .error e) :
    let r := this.ComQuery env (.connector mc)
      ("set".toList ++ mid ++ "collate".toList ++ rest) callback
    r.ret = none
    ∧ callbacks r.events = [some Result.zero]
    ∧ executes r.events = []
    ∧ closes r.events = []
    ∧ r.handler = this
    ∧ Result.zero.Rows = [] ∧ Result.zero.Fields = [] ∧ Result.zero.RowsAffected = 0 := by
  intro r
  obtain ⟨h1, h2, h3⟩ := ComQuery_noop env this mc _ callback e hp
    (Or.inr (reSetCollate_MatchString_of_shape mid rest hn))
  have hr : r = this.ComQuery env (.connector mc)
      ("set".toList ++ mid ++ "collate".toList ++ rest) callback := rfl
  rw [hr, h2, h3, h1]
  simp [callbacks, executes, closes, Result.zero]

/-- C8 (amended) at `set names 'utf8' collate 'utf8_unicode_ci'`. -/
theorem C8_set_collate_lower_case_witness :
    let r := twoSessions.ComQuery rejectAll (.connector ⟨1⟩)
      ("set".toList ++ " names 'utf8' ".toList ++ "collate".toList
        ++ " 'utf8_unicode_ci'".toList) okCallback
    r.ret = none ∧ callbacks r.events = [some Result.zero] := by
  have h := C8_set_collate_lower_case rejectAll twoSessions ⟨1⟩ okCallback
    " names 'utf8' ".toList " 'utf8_unicode_ci'".toList
    (Error.collaborator "syntax error".toList) (by decide) rfl
  exact ⟨h.1, h.2.1⟩

/-- C9: for a rejected text `/*`, a non-empty body without a newline, `*/`,
`ComQuery` invokes the callback once, with the empty result, and returns nil;
it makes no other call after the parser: nothing is executed on the connector
and no connector is looked up or closed, whatever the body says. -/
theorem C9_comment_noop (env : Env) (this : ServerHandler) (mc : Connector)
    (callback : Option Result → Option Error) (body : Str) (e : Error)
    (hne : body ≠ []) (hnl : '\n' ∉ body)
    (hp : env.parse ("/*".toList ++ body ++ "*/".toList) = .error e) :
    let r := this.ComQuery env (.connector mc) ("/*".toList ++ body ++ "*/".toList) callback
    r.ret = none
    ∧ r.events = [Event.upActiveTime mc, Event.logQuery ("/*".toList ++ body ++ "*/".toList),
        Event.parse ("/*".toList ++ body ++ "*/".toList), Event.callback (some Result.zero)]
    ∧ callbacks r.events = [some Result.zero]
    ∧ executes r.events = []
    ∧ closes r.events = []
    ∧ r.handler = this
    ∧ Result.zero.Rows = [] ∧ Result.zero.Fields = [] ∧ Result.zero.RowsAffected = 0 := by
  intro r
  have hm : reComment.MatchString ("/*".toList ++ body ++ "*/".toList) = true :=
    (reComment_MatchString_iff _).2 ⟨body, hne, hnl, by simp⟩
  obtain ⟨h1, h2, h3⟩ := ComQuery_noop env this mc _ callback e hp (Or.inl hm)
  have hr : r = this.ComQuery env (.connector mc)
      ("/*".toList ++ body ++ "*/".toList) callback := rfl
  rw [hr, h2, h3, h1]
  simp [callbacks, executes, closes, Result.zero]

/-- C9 at `/* anything */`. -/
theorem C9_comment_noop_witness :
    let r := twoSessions.ComQuery rejectAll (.connector ⟨1⟩)
      ("/*".toList ++ " anything ".toList ++ "*/".toList) okCallback
    r.ret = none ∧ callbacks r.events = [some Result.zero] ∧ closes r.events = [] := by
  have h := C9_comment_noop rejectAll twoSessions ⟨1⟩ okCallback " anything ".toList
    (Error.collaborator "syntax error".toList) (by decide) (by decide) rfl
  exact ⟨h.1, h.2.2.1, h.2.2.2.2.1⟩

/-- C10 (the claim fails): the rejected text `/* a */ x /* b */` takes the
comment no-op, and what stands between its first `/*` and its last `*/`
contains `*/`: there is text after the close of the first comment. -/
theorem C10_two_comments_match :
    reComment.MatchString "/* a */ x /* b */".toList = true
    ∧ callbacks
        (twoSessions.ComQuery rejectAll (.connector ⟨1⟩) "/* a */ x /* b */".toList
          okCallback).events = [some Result.zero]
    ∧ ∀ body : Str, "/* a */ x /* b */".toList = "/*".toList ++ body ++ "*/".toList →
        "*/".toList <:+: body := by
  refine ⟨by decide, by decide, ?_⟩
  intro body hb
  have h1 : "/*".toList ++ " a */ x /* b ".toList ++ "*/".toList
      = "/*".toList ++ body ++ "*/".toList := by
    rw [← hb]
    rfl
  have h2 := List.append_cancel_left (List.append_cancel_right h1)
  rw [← h2]
  decide

/-- C10 (amended): a rejected text that takes the comment no-op is `/*`, a
non-empty body without a newline, `*/`; the body may hold `*/` itself. -/
theorem C10_comment_shape (env : Env) (this : ServerHandler) (mc : Connector)
    (callback : Option Result → Option Error) (query : Str) (e : Error)
    (hp : env.parse query = .error e)
    (hm : reComment.MatchString query = true) :
    callbacks (this.ComQuery env (.connector mc) query callback).events = [some Result.zero]
    ∧ (this.ComQuery env (.connector mc) query callback).ret = none
    ∧ ∃ body : Str, body ≠ [] ∧ '\n' ∉ body
        ∧ query = "/*".toList ++ body ++ "*/".toList := by
  obtain ⟨_, h2, h3⟩ := ComQuery_noop env this mc query callback e hp (Or.inl hm)
  obtain ⟨body, hne, hnl, hq⟩ := (reComment_MatchString_iff query).1 hm
  refine ⟨by rw [h3]; simp [callbacks], h2, body, hne, hnl, ?_⟩
  rw [hq]
  simp

/-- C10 (amended) at `/* a */ x /* b */`. -/
theorem C10_comment_shape_witness :
    callbacks
        (twoSessions.ComQuery rejectAll (.connector ⟨1⟩) "/* a */ x /* b */".toList
          okCallback).events = [some Result.zero]
    ∧ ∃ body : Str, body ≠ [] ∧ '\n' ∉ body
        ∧ "/* a */ x /* b */".toList = "/*".toList ++ body ++ "*/".toList := by
  have h := C10_comment_shape rejectAll twoSessions ⟨1⟩ okCallback "/* a */ x /* b */".toList
    (Error.collaborator "syntax error".toList) rfl (by decide)
  exact ⟨h.1, h.2.2⟩

/-! ## Execution and delivery -/

/-- The branch of `ComQuery` for a text the parser accepts. -/
theorem ComQuery_accepted (env : Env) (this : ServerHandler) (mc : Connector) (query : Str)
    (callback : Option Result → Option Error) (stmt : Statement)
    (hp : env.parse query = .ok stmt) :
    this.ComQuery env (.connector mc) query callback =
      match env.execute mc stmt query with
      | .error err =>
        { handler := this, ret := some err
          events := [Event.upActiveTime mc, Event.logQuery query, Event.parse query,
            Event.execute mc stmt query, Event.flush] }
      | .ok rs =>
        { handler := this, ret := callback (some rs)
          events := [Event.upActiveTime mc, Event.logQuery query, Event.parse query,
            Event.execute mc stmt query, Event.callback (some rs), Event.flush] } := by
  simp only [ServerHandler.ComQuery, ServerHandler.ComQueryBody, ServerHandler.isBlacklistQuery, hp]
  cases env.execute mc stmt query <;> simp

/-- What `comKill` leaves behind: the handler as it was, and the calls of a
lookup, with the `Close` of the connector found when there is one. -/
theorem comKill_shape (env : Env) (this : ServerHandler) (query : Str) :
    (this.comKill env query).handler = this
    ∧ callbacks (this.comKill env query).events = []
    ∧ executes (this.comKill env query).events = []
    ∧ ((this.comKill env query).ret.rs = none → closes (this.comKill env query).events = [])
    ∧ ((this.comKill env query).ret.ok = false → (this.comKill env query).ret.err = none) := by
  unfold ServerHandler.comKill
  simp only []
  split
  · simp [callbacks, executes, closes]
  · split
    · simp [callbacks, executes, closes]
    · split <;> simp [callbacks, executes, closes, ServerHandler.getConnectorById]

/-- C11: for a text the parser accepts as `stmt`, `ComQuery` calls the
connector's `ComQuery` once, with `stmt` and the raw text; when that fails with
`e`, `ComQuery` returns `e` and the callback is not invoked; when it gives `rs`,
the callback is invoked once, with `rs`, and `ComQuery` returns what the
callback returned. -/
theorem C11_execute_and_deliver (env : Env) (this : ServerHandler) (mc : Connector)
    (query : Str) (callback : Option Result → Option Error) (stmt : Statement)
    (hp : env.parse query = .ok stmt) :
    let r := this.ComQuery env (.connector mc) query callback
    executes r.events = [(mc, stmt, query)]
    ∧ (∀ e, env.execute mc stmt query = .error e →
        r.ret = some e ∧ callbacks r.events = [])
    ∧ (∀ rs, env.execute mc stmt query = .ok rs →
        callbacks r.events = [some rs] ∧ r.ret = callback (some rs))
    ∧ closes r.events = []
    ∧ r.handler = this := by
  intro r
  have hr : r = this.ComQuery env (.connector mc) query callback := rfl
  rw [ComQuery_accepted env this mc query callback stmt hp] at hr
  refine ⟨?_, ?_, ?_, ?_, ?_⟩
  · rw [hr]
    cases env.execute mc stmt query <;> simp [executes]
  · intro e he
    rw [hr, he]
    simp [callbacks]
  · intro rs he
    rw [hr, he]
    simp [callbacks]
  · rw [hr]
    cases env.execute mc stmt query <;> simp [closes]
  · rw [hr]
    cases env.execute mc stmt query <;> rfl

/-- C11 at `select 1`, with an execution that succeeds and with one that fails. -/
theorem C11_execute_and_deliver_witness :
    (executes (twoSessions.ComQuery acceptAll (.connector ⟨1⟩) "select 1".toList
        failCallback).events = [(⟨1⟩, ⟨0⟩, "select 1".toList)]
      ∧ callbacks (twoSessions.ComQuery acceptAll (.connector ⟨1⟩) "select 1".toList
        failCallback).events = [some Result.zero]
      ∧ (twoSessions.ComQuery acceptAll (.connector ⟨1⟩) "select 1".toList failCallback).ret
        = some (Error.collaborator "delivery failed".toList))
    ∧ ((twoSessions.ComQuery acceptAllExecFails (.connector ⟨1⟩) "select 1".toList
        okCallback).ret = some (Error.collaborator "backend down".toList)
      ∧ callbacks (twoSessions.ComQuery acceptAllExecFails (.connector ⟨1⟩) "select 1".toList
        okCallback).events = []) := by
  have h := C11_execute_and_deliver acceptAll twoSessions ⟨1⟩ "select 1".toList failCallback
    ⟨0⟩ rfl
  have g := C11_execute_and_deliver acceptAllExecFails twoSessions ⟨1⟩ "select 1".toList
    okCallback ⟨0⟩ rfl
  exact ⟨⟨h.1, (h.2.2.1 _ rfl).1, (h.2.2.1 _ rfl).2⟩, g.2.1 _ rfl⟩

/-- C12 (the code departs from the claim): with a callback that fails, the
comment no-op, the set/collate no-op and the successful kill invoke the
callback and return nil, its error being dropped; the ordinary execution
returns the error of the callback. -/
theorem C12_callback_error_dropped :
    failCallback (some Result.zero) = some (Error.collaborator "delivery failed".toList)
    ∧ (callbacks (twoSessions.ComQuery rejectAll (.connector ⟨1⟩) "/* anything */".toList
          failCallback).events = [some Result.zero]
      ∧ (twoSessions.ComQuery rejectAll (.connector ⟨1⟩) "/* anything */".toList
          failCallback).ret = none)
    ∧ (callbacks (twoSessions.ComQuery rejectAll (.connector ⟨1⟩)
          "set names 'utf8' collate 'utf8_unicode_ci'".toList failCallback).events
          = [some Result.zero]
      ∧ (twoSessions.ComQuery rejectAll (.connector ⟨1⟩)
          "set names 'utf8' collate 'utf8_unicode_ci'".toList failCallback).ret = none)
    ∧ (callbacks (twoSessions.ComQuery rejectAll (.connector ⟨2⟩) "KILL 7".toList
          failCallback).events
          = [some { Fields := [], RowsAffected := 1, InsertID := 0, Rows := [] }]
      ∧ (twoSessions.ComQuery rejectAll (.connector ⟨2⟩) "KILL 7".toList
          failCallback).ret = none)
    ∧ (callbacks (twoSessions.ComQuery acceptAll (.connector ⟨1⟩) "select 1".toList
          failCallback).events = [some Result.zero]
      ∧ (twoSessions.ComQuery acceptAll (.connector ⟨1⟩) "select 1".toList
          failCallback).ret = some (Error.collaborator "delivery failed".toList)) := by
  decide

/-- C13: a call of `ComQuery` invokes the callback at most once, and when it
invokes it and returns an error, the error is the one the callback returned;
so no callback goes with an error made before delivery: not connected,
refusal, an error of `comKill` (malformed identifier, unknown target, failure
of `Close`) or a failure of the execution. -/
theorem C13_callback_at_most_once (env : Env) (this : ServerHandler) (conn : Token)
    (query : Str) (callback : Option Result → Option Error) :
    let r := this.ComQuery env conn query callback
    (callbacks r.events).length ≤ 1
    ∧ (callbacks r.events = []
        ∨ ∃ rs, callbacks r.events = [rs] ∧ (r.ret = none ∨ r.ret = callback rs))
    ∧ (conn = Token.other →
        r.ret = some (Error.new "not connect!".toList) ∧ callbacks r.events = [])
    ∧ (r.ret = some (Error.new ("Myhub refused execute: ".toList ++ query)) →
        callbacks r.events = [] ∨ ∃ rs, callbacks r.events = [rs] ∧ r.ret = callback rs)
    ∧ (∀ mc e killErr, conn = Token.connector mc → env.parse query = .error e →
        reComment.MatchString query = false → reSetCollate.MatchString query = false →
        (this.comKill env query).ret.err = some killErr →
        r.ret = some killErr ∧ callbacks r.events = [])
    ∧ (∀ mc stmt e, conn = Token.connector mc → env.parse query = .ok stmt →
        env.execute mc stmt query = .error e →
        r.ret = some e ∧ callbacks r.events = []) := by
  intro r
  have hr : r = this.ComQuery env conn query callback := rfl
  obtain ⟨_, hkc, _, _, _⟩ := comKill_shape env this query
  have hkill : ∀ mc e killErr, conn = Token.connector mc → env.parse query = .error e →
      reComment.MatchString query = false → reSetCollate.MatchString query = false →
      (this.comKill env query).ret.err = some killErr →
      r.ret = some killErr ∧ callbacks r.events = [] := by
    intro mc e killErr hc hp h1 h2 hk
    rw [hr, hc, ComQuery_fallback env this mc query callback e hp h1 h2]
    simp [hk, callbacks, callbacks_append, hkc]
  have hexec : ∀ mc stmt e, conn = Token.connector mc → env.parse query = .ok stmt →
      env.execute mc stmt query = .error e →
      r.ret = some e ∧ callbacks r.events = [] := by
    intro mc stmt e hc hp he
    rw [hr, hc, ComQuery_accepted env this mc query callback stmt hp, he]
    simp [callbacks]
  have hmain : callbacks r.events = []
      ∨ ∃ rs, callbacks r.events = [rs] ∧ (r.ret = none ∨ r.ret = callback rs) := by
    cases conn with
    | other =>
      left
      rw [hr]
      rfl
    | connector mc =>
      cases hp : env.parse query with
      | ok stmt =>
        cases he : env.execute mc stmt query with
        | error e => exact Or.inl (hexec mc stmt e rfl hp he).2
        | ok rs =>
          right
          refine ⟨some rs, ?_, Or.inr ?_⟩
          · rw [hr, ComQuery_accepted env this mc query callback stmt hp, he]
            simp [callbacks]
          · rw [hr, ComQuery_accepted env this mc query callback stmt hp, he]
      | error e =>
        by_cases h1 : reComment.MatchString query = true
        · obtain ⟨_, n2, n3⟩ := ComQuery_noop env this mc query callback e hp (Or.inl h1)
          right
          exact ⟨some Result.zero, by rw [hr, n3]; simp [callbacks], Or.inl (by rw [hr, n2])⟩
        · by_cases h2 : reSetCollate.MatchString query = true
          · obtain ⟨_, n2, n3⟩ := ComQuery_noop env this mc query callback e hp (Or.inr h2)
            right
            exact ⟨some Result.zero, by rw [hr, n3]; simp [callbacks], Or.inl (by rw [hr, n2])⟩
          · have h1f : reComment.MatchString query = false := by simpa using h1
            have h2f : reSetCollate.MatchString query = false := by simpa using h2
            cases hk : (this.comKill env query).ret.err with
            | some killErr => exact Or.inl (hkill mc e killErr rfl hp h1f h2f hk).2
            | none =>
              rw [hr, ComQuery_fallback env this mc query callback e hp h1f h2f]
              by_cases hok : (this.comKill env query).ret.ok = true
              · right
                refine ⟨(this.comKill env query).ret.rs, ?_, Or.inl ?_⟩
                · simp [hk, hok, callbacks, callbacks_append, hkc]
                · simp [hk, hok]
              · left
                simp [hk, hok, callbacks, callbacks_append, hkc]
  refine ⟨?_, hmain, ?_, ?_, hkill, hexec⟩
  · rcases hmain with h | ⟨rs, h, _⟩ <;> simp [h]
  · intro hc
    rw [hr, hc]
    exact ⟨rfl, rfl⟩
  · intro hret
    rcases hmain with h | ⟨rs, h, h3⟩
    · exact Or.inl h
    · right
      refine ⟨rs, h, ?_⟩
      rcases h3 with h3 | h3
      · rw [h3] at hret
        cases hret
      · exact h3

/-- C13 at `KILL abc`, at a failing `Close`, at a token that is no connector
and at an ordinary execution. -/
theorem C13_callback_at_most_once_witness :
    callbacks (twoSessions.ComQuery rejectAll (.connector ⟨1⟩) "KILL abc".toList
        okCallback).events = []
    ∧ callbacks (twoSessions.ComQuery rejectAllCloseFails (.connector ⟨1⟩) "kill 7".toList
        okCallback).events = []
    ∧ callbacks (twoSessions.ComQuery rejectAll Token.other "select 1".toList
        okCallback).events = []
    ∧ (callbacks (twoSessions.ComQuery acceptAll (.connector ⟨1⟩) "select 1".toList
        okCallback).events).length ≤ 1 := by
  have a := (C13_callback_at_most_once rejectAll twoSessions (.connector ⟨1⟩)
    "KILL abc".toList okCallback).2.2.2.2.1 ⟨1⟩ (Error.collaborator "syntax error".toList)
    (Error.numError "ParseInt".toList "abc".toList .syntaxErr) rfl rfl (by decide) (by decide)
    (by decide)
  have c := (C13_callback_at_most_once rejectAllCloseFails twoSessions (.connector ⟨1⟩)
    "kill 7".toList okCallback).2.2.2.2.1 ⟨1⟩ (Error.collaborator "syntax error".toList)
    (Error.collaborator "close failed".toList) rfl rfl (by decide) (by decide) (by decide)
  have d := (C13_callback_at_most_once rejectAll twoSessions Token.other
    "select 1".toList okCallback).2.2.1 rfl
  have e := (C13_callback_at_most_once acceptAll twoSessions (.connector ⟨1⟩)
    "select 1".toList okCallback).1
  exact ⟨a.2, c.2, d.2, e⟩

/-! ## The kill recognizer -/

theorem splitSpace_ne_nil (s : Str) : splitSpace s ≠ [] := by
  cases s with
  | nil => simp [splitSpace]
  | cons c cs =>
    by_cases hc : c = ' '
    · simp [splitSpace, hc]
    · cases h : splitSpace cs <;> simp [splitSpace, hc, h]

/-- Splitting at a space puts the tokens of the two sides one after the other. -/
theorem splitSpace_append (a b : Str) :
    splitSpace (a ++ ' ' :: b) = splitSpace a ++ splitSpace b := by
  induction a with
  | nil => simp [splitSpace]
  | cons c a ih =>
    by_cases hc : c = ' '
    · simp [splitSpace, hc, ih]
    · cases h : splitSpace a with
      | nil => exact absurd h (splitSpace_ne_nil a)
      | cons t ts => simp [splitSpace, hc, ih, h]

theorem normalize_space_cons (env : Env) (s : Str) :
    normalize env (' ' :: s) = ' ' :: normalize env s := by
  have h := normalize_append env [' '] s
  simp only [List.singleton_append] at h
  rw [h]
  rfl

/-- Lower-casing makes no space, the case tables making none. -/
theorem unicodeToLower_ne_space (special : Char → Char)
    (hlow : ∀ r : Char, 127 < r.toNat → special r ≠ ' ')
    (r : Char) (hr : r ≠ ' ') : unicodeToLower special r ≠ ' ' := by
  unfold unicodeToLower
  split
  · split
    · rename_i h1 h2
      intro h
      have h3 : (Char.ofNat (r.toNat + 32)).toNat = 32 := by rw [h]; rfl
      obtain ⟨h4, h5⟩ := h2
      interval_cases h6 : r.toNat <;> simp at h3
    · exact hr
  · rename_i h1
    exact hlow r (by omega)

theorem normalize_no_space (env : Env)
    (hlow : ∀ r : Char, 127 < r.toNat → env.lowerSpecial r ≠ ' ') (t : Str)
    (ht : ' ' ∉ t) : ' ' ∉ normalize env t := by
  intro hmem
  simp only [normalize, toLower, removeAll, List.mem_map, List.mem_filter] at hmem
  obtain ⟨r, ⟨⟨hr, _⟩, _⟩, h⟩ := hmem
  have hne : r ≠ ' ' := fun e => ht (e ▸ hr)
  exact unicodeToLower_ne_space _ hlow r hne h

/-- The tokens of a text `kw t rest` with single spaces, `kw` lower-casing to `kill`. -/
theorem tokens_kill_trailing (env : Env) (kw t rest : Str)
    (hkw : normalize env kw = "kill".toList) (ht : ' ' ∉ normalize env t) :
    splitSpace (normalize env (kw ++ ' ' :: (t ++ ' ' :: rest)))
      = [] ++ "kill".toList :: (normalize env t :: splitSpace (normalize env rest)) := by
  rw [normalize_append, hkw, normalize_space_cons, normalize_append, normalize_space_cons,
    splitSpace_append_space _ _ (by decide), splitSpace_append_space _ _ ht]
  rfl

theorem tokens_kill_single (env : Env) (kw t : Str)
    (hkw : normalize env kw = "kill".toList) (ht : ' ' ∉ normalize env t) :
    splitSpace (normalize env (kw ++ ' ' :: t))
      = [] ++ "kill".toList :: [normalize env t] := by
  rw [normalize_append, hkw, normalize_space_cons, splitSpace_append_space _ _ (by decide),
    splitSpace_of_no_space _ ht]
  rfl

/-- C15: for every `int64` `n` the lookup of a kill goes to the `uint32` key
congruent to `n` modulo `2^32`: `getConnectorById n` is the entry of that key,
and `kill <n>` closes exactly the connector registered under it. -/
theorem C15_kill_truncates (env : Env) (this : ServerHandler) (n : Int)
    (h1 : -2 ^ 63 ≤ n) (h2 : n < 2 ^ 63) :
    toUint32 n < 2 ^ 32
    ∧ (n - (toUint32 n : Int)) % 2 ^ 32 = 0
    ∧ (this.getConnectorById n).ret = (List.lookup (toUint32 n) this.connectorMap).join
    ∧ (this.getConnectorById n).ret = (this.getConnector ⟨toUint32 n⟩).ret
    ∧ ∀ c, List.lookup (toUint32 n) this.connectorMap = some (some c) →
        closes (this.comKill env ("kill ".toList ++ formatInt n)).events = [c]
        ∧ (this.comKill env ("kill ".toList ++ formatInt n)).ret
          = { rs := some { Fields := [], RowsAffected := 1, InsertID := 0, Rows := [] }
              err := env.close c, ok := true } := by
  have hk : (toUint32 n : Int) = n % 2 ^ 32 := by
    unfold toUint32
    exact Int.toNat_of_nonneg (Int.emod_nonneg _ (by norm_num))
  refine ⟨?_, ?_, getConnectorById_ret this n, ?_, ?_⟩
  · have : n % 2 ^ 32 < 2 ^ 32 := Int.emod_lt_of_pos _ (by norm_num)
    omega
  · rw [hk]
    omega
  · rw [getConnectorById_ret, getConnector_ret]
  · intro c hc
    have hq : "kill ".toList ++ formatInt n = "kill".toList ++ ' ' :: formatInt n := by
      simp
    have hg : (this.getConnectorById n).ret = some c := by
      rw [getConnectorById_ret, hc]
      rfl
    have hkill := comKill_kill_id env this "kill".toList rfl n h1 h2
    rw [hg] at hkill
    simp only at hkill
    rw [hq, hkill]
    exact ⟨rfl, rfl⟩

/-- C15 at `kill 4294967303` and at `kill -4294967289`: both close session 7. -/
theorem C15_kill_truncates_witness :
    toUint32 4294967303 = 7
    ∧ toUint32 (-4294967289) = 7
    ∧ closes (twoSessions.comKill rejectAll ("kill ".toList ++ formatInt 4294967303)).events
      = [⟨1⟩]
    ∧ closes (twoSessions.comKill rejectAll ("kill ".toList ++ formatInt (-4294967289))).events
      = [⟨1⟩] := by
  have h := C15_kill_truncates rejectAll twoSessions 4294967303 (by decide) (by decide)
  have g := C15_kill_truncates rejectAll twoSessions (-4294967289) (by decide) (by decide)
  exact ⟨by decide, by decide, (h.2.2.2.2 ⟨1⟩ (by decide)).1, (g.2.2.2.2 ⟨1⟩ (by decide)).1⟩

/-- C17: tokens after the identifier are ignored. For a keyword that
lower-cases to `kill` (`kill`, `KILL`), a token `t` without a space and any
`rest`, `comKill` on `kw t rest` is `comKill` on `kw t`: same handler, same
result, error and flag, same calls. The case tables of `unicode.ToLower` map
no rune above ASCII to a space. -/
theorem C17_trailing_tokens_ignored (env : Env) (this : ServerHandler) (kw t rest : Str)
    (hkw : normalize env kw = "kill".toList)
    (hlow : ∀ r : Char, 127 < r.toNat → env.lowerSpecial r ≠ ' ') (ht : ' ' ∉ t) :
    this.comKill env (kw ++ ' ' :: (t ++ ' ' :: rest)) = this.comKill env (kw ++ ' ' :: t) := by
  have hnt := normalize_no_space env hlow t ht
  rw [comKill_of_kill env this _ [] _ (tokens_kill_trailing env kw t rest hkw hnt) (by simp),
    comKill_of_kill env this _ [] _ (tokens_kill_single env kw t hkw hnt) (by simp)]
  rfl

/-- C17 at `KILL 7 QUERY` against `KILL 7`, and at `kill 7 query` against `kill 7`. -/
theorem C17_trailing_tokens_ignored_witness :
    twoSessions.comKill rejectAll ("KILL".toList ++ ' ' :: ("7".toList ++ ' ' :: "QUERY".toList))
      = twoSessions.comKill rejectAll ("KILL".toList ++ ' ' :: "7".toList)
    ∧ twoSessions.comKill rejectAll
        ("kill".toList ++ ' ' :: ("7".toList ++ ' ' :: "query".toList))
      = twoSessions.comKill rejectAll ("kill".toList ++ ' ' :: "7".toList)
    ∧ closes (twoSessions.comKill rejectAll "KILL 7 QUERY".toList).events = [⟨1⟩] :=
  ⟨C17_trailing_tokens_ignored rejectAll twoSessions "KILL".toList "7".toList "QUERY".toList
      rfl (fun r hr h => by subst h; revert hr; decide) (by decide),
    C17_trailing_tokens_ignored rejectAll twoSessions "kill".toList "7".toList "query".toList
      rfl (fun r hr h => by subst h; revert hr; decide) (by decide),
    by decide⟩

/-- C20 (the claim fails): the rejected text `kill kill 7` matches neither
no-op pattern and has a token `kill` followed by the registered identifier 7;
the identifier token is the one after the first `kill`, which is `kill`:
`ComQuery` returns the error of `ParseInt` and closes nothing. -/
theorem C20_second_kill_not_scanned :
    splitSpace (normalize rejectAll "kill kill 7".toList)
      = ["kill".toList, "kill".toList, "7".toList]
    ∧ (twoSessions.getConnectorById 7).ret = some ⟨1⟩
    ∧ reComment.MatchString "kill kill 7".toList = false
    ∧ reSetCollate.MatchString "kill kill 7".toList = false
    ∧ closes (twoSessions.ComQuery rejectAll (.connector ⟨2⟩) "kill kill 7".toList
        okCallback).events = []
    ∧ (twoSessions.ComQuery rejectAll (.connector ⟨2⟩) "kill kill 7".toList okCallback).ret
      = some (Error.numError "ParseInt".toList "kill".toList .syntaxErr) := by
  decide

/-- C20 (amended): tokens before the first `kill` are skipped. For a text `pre`
whose tokens hold no `kill` and any `rest`, `comKill` on `pre kill rest` is
`comKill` on `kill rest`; and for every rejected text that matches neither
no-op pattern and whose first token `kill` is followed at once by a token that
reads as an identifier registered for connector `c`, whatever stands before
and after, `ComQuery` closes `c`, once, and no other connector. -/
theorem C20_tokens_before_kill_skipped (env : Env) (this : ServerHandler) (pre rest : Str)
    (hpre : "kill".toList ∉ splitSpace (normalize env pre)) :
    this.comKill env (pre ++ " kill ".toList ++ rest)
      = this.comKill env ("kill ".toList ++ rest)
    ∧ ∀ (mc : Connector) (callback : Option Result → Option Error) (e : Error) (query : Str)
        (toks post : List Str) (t : Str) (id : Int) (c : Connector),
        splitSpace (normalize env query) = toks ++ "kill".toList :: t :: post →
        "kill".toList ∉ toks →
        parseInt t = .ok id →
        (this.getConnectorById id).ret = some c →
        env.parse query = .error e →
        reComment.MatchString query = false →
        reSetCollate.MatchString query = false →
        closes (this.ComQuery env (.connector mc) query callback).events = [c] := by
  have hn1 : normalize env (pre ++ " kill ".toList ++ rest)
      = normalize env pre ++ ' ' :: ("kill".toList ++ ' ' :: normalize env rest) := by
    have e1 : pre ++ " kill ".toList ++ rest = pre ++ (' ' :: ("kill".toList ++ ' ' :: rest)) := by
      simp
    rw [e1, normalize_append, normalize_space_cons, normalize_append, normalize_space_cons]
    rfl
  have hn2 : normalize env ("kill ".toList ++ rest)
      = "kill".toList ++ ' ' :: normalize env rest := by
    have e2 : "kill ".toList ++ rest = "kill".toList ++ ' ' :: rest := by simp
    rw [e2, normalize_append, normalize_space_cons]
    rfl
  have ht1 : splitSpace (normalize env (pre ++ " kill ".toList ++ rest))
      = splitSpace (normalize env pre) ++ "kill".toList :: splitSpace (normalize env rest) := by
    rw [hn1, splitSpace_append, splitSpace_append_space _ _ (by decide)]
  have ht2 : splitSpace (normalize env ("kill ".toList ++ rest))
      = [] ++ "kill".toList :: splitSpace (normalize env rest) := by
    rw [hn2, splitSpace_append_space _ _ (by decide)]
    rfl
  have heq : this.comKill env (pre ++ " kill ".toList ++ rest)
      = this.comKill env ("kill ".toList ++ rest) := by
    rw [comKill_of_kill env this _ _ _ ht1 hpre, comKill_of_kill env this _ [] _ ht2 (by simp)]
  refine ⟨heq, ?_⟩
  intro mc callback e query toks post t id c htok htoks hid hg hp hm1 hm2
  have hk := comKill_of_kill env this query toks (t :: post) htok htoks
  simp only [List.headD_cons, hid, hg] at hk
  rw [ComQuery_fallback env this mc _ callback e hp hm1 hm2, hk]
  cases env.close c <;> simp [closes]

/-- C20 (amended) at `x kill 7` against `kill 7`, and at `x kill 7 y`. -/
theorem C20_tokens_before_kill_skipped_witness :
    twoSessions.comKill rejectAll ("x".toList ++ " kill ".toList ++ "7".toList)
      = twoSessions.comKill rejectAll ("kill ".toList ++ "7".toList)
    ∧ closes (twoSessions.comKill rejectAll "x kill 7".toList).events = [⟨1⟩]
    ∧ closes (twoSessions.ComQuery rejectAll (.connector ⟨2⟩) "x kill 7 y".toList
        okCallback).events = [⟨1⟩] :=
  ⟨(C20_tokens_before_kill_skipped rejectAll twoSessions "x".toList "7".toList
      (by decide)).1, by decide,
    (C20_tokens_before_kill_skipped rejectAll twoSessions "x".toList "7".toList
      (by decide)).2 ⟨2⟩ okCallback (Error.collaborator "syntax error".toList)
      "x kill 7 y".toList ["x".toList] ["y".toList] "7".toList 7 ⟨1⟩ (by decide) (by decide)
      rfl (by decide) rfl (by decide) (by decide)⟩

/-! ## The gate and the lock -/

theorem parses_append (xs ys : List Event) : parses (xs ++ ys) = parses xs ++ parses ys := by
  induction xs with
  | nil => rfl
  | cons e xs ih => cases e <;> simp [parses, ih]

theorem comKill_parses (env : Env) (this : ServerHandler) (query : Str) :
    parses (this.comKill env query).events = [] := by
  unfold ServerHandler.comKill
  simp only []
  split
  · rfl
  · split
    · rfl
    · split <;> simp [parses, ServerHandler.getConnectorById]

/-- With a connector as token, `ComQuery` calls the parser, once, on the text. -/
theorem ComQuery_parses (env : Env) (this : ServerHandler) (mc : Connector) (query : Str)
    (callback : Option Result → Option Error) :
    parses (this.ComQuery env (.connector mc) query callback).events = [query] := by
  cases hp : env.parse query with
  | ok stmt =>
    rw [ComQuery_accepted env this mc query callback stmt hp]
    cases env.execute mc stmt query <;> simp [parses]
  | error e =>
    by_cases h1 : reComment.MatchString query = true
    · rw [(ComQuery_noop env this mc query callback e hp (Or.inl h1)).2.2]
      simp [parses]
    · by_cases h2 : reSetCollate.MatchString query = true
      · rw [(ComQuery_noop env this mc query callback e hp (Or.inr h2)).2.2]
        simp [parses]
      · have h1f : reComment.MatchString query = false := by simpa using h1
        have h2f : reSetCollate.MatchString query = false := by simpa using h2
        have hk := comKill_parses env this query
        rw [ComQuery_fallback env this mc query callback e hp h1f h2f]
        split
        · split <;> simp [parses, parses_append, hk]
        · simp [parses, parses_append, hk]

/-- C18: when the call `this.isBlacklistQuery(query)` gives true, the body of
`ComQuery` returns the error `Myhub refused execute: <text>` and calls neither
the parser nor the connector nor the callback; and `isBlacklistQuery` is false
on every text, so that `ComQuery`, which is its body at that value, always goes
on to the parser and refuses nothing. -/
theorem C18_blacklist_gate (env : Env) (this : ServerHandler) (mc : Connector) (query : Str)
    (callback : Option Result → Option Error) :
    (this.ComQueryBody true env (.connector mc) query callback).ret
      = some (Error.new ("Myhub refused execute: ".toList ++ query))
    ∧ (this.ComQueryBody true env (.connector mc) query callback).events
      = [Event.upActiveTime mc, Event.logQuery query]
    ∧ parses (this.ComQueryBody true env (.connector mc) query callback).events = []
    ∧ executes (this.ComQueryBody true env (.connector mc) query callback).events = []
    ∧ callbacks (this.ComQueryBody true env (.connector mc) query callback).events = []
    ∧ closes (this.ComQueryBody true env (.connector mc) query callback).events = []
    ∧ (this.ComQueryBody true env (.connector mc) query callback).handler = this
    ∧ (∀ conn q, this.ComQuery env conn q callback
        = this.ComQueryBody (this.isBlacklistQuery q) env conn q callback)
    ∧ (∀ q, this.isBlacklistQuery q = false)
    ∧ (∀ q, parses (this.ComQuery env (.connector mc) q callback).events = [q]) :=
  ⟨rfl, rfl, rfl, rfl, rfl, rfl, rfl, fun _ _ => rfl, fun _ => rfl,
    fun q => ComQuery_parses env this mc q callback⟩

/-- C19 (the code departs from the claim): `getConnector`, `getConnectorById`,
`addConnector` and `delConnector` touch the map with the mutex held and close
the connector after the unlock; `GetConnectorMap` and `getConnectorCount` read
the map without the mutex: their only call is the access of the map. -/
theorem C19_lock_discipline (this : ServerHandler) (c : Conn) (m : Connector) (id : Int) :
    lockDisciplined false (this.getConnector c).events = true
    ∧ lockDisciplined false (this.getConnectorById id).events = true
    ∧ lockDisciplined false (this.addConnector c m).events = true
    ∧ lockDisciplined false (this.delConnector c).events = true
    ∧ this.GetConnectorMap.events = [Event.mapAccess]
    ∧ lockDisciplined false this.GetConnectorMap.events = false
    ∧ this.getConnectorCount.events = [Event.mapAccess]
    ∧ lockDisciplined false this.getConnectorCount.events = false := by
  refine ⟨rfl, rfl, ?_, ?_, rfl, rfl, rfl, rfl⟩
  · unfold ServerHandler.addConnector ConnectorMap.index
    cases List.lookup c.ConnectionID this.connectorMap with
    | none => rfl
    | some v => cases v <;> rfl
  · unfold ServerHandler.delConnector ConnectorMap.index
    cases List.lookup c.ConnectionID this.connectorMap with
    | none => rfl
    | some v => cases v <;> rfl

/-! ## Separators of the kill recognizer -/

/-- A text whose characters normalization leaves alone is left alone. -/
theorem normalize_stable (env : Env) (s : Str) (hs : ∀ c ∈ s, normalize env [c] = [c]) :
    normalize env s = s := by
  induction s with
  | nil => rfl
  | cons c s ih =>
    have h3 := normalize_append env [c] s
    simp only [List.singleton_append] at h3
    rw [h3, hs c (List.mem_cons_self _ _), ih (fun x hx => hs x (List.mem_cons_of_mem _ hx))]
    rfl

/-- The characters of a run of blanks and of `formatInt n`: normalization leaves
them alone and none is `k`. -/
theorem blank_or_id_char (env : Env) (w : Str) (hw : ∀ c ∈ w, c = ' ' ∨ c = '\t') (n : Int)
    (c : Char) (hc : c ∈ w ++ formatInt n) : normalize env [c] = [c] ∧ c ≠ 'k' := by
  rcases List.mem_append.1 hc with h | h
  · rcases hw c h with e | e <;> subst e <;> exact ⟨rfl, by decide⟩
  · rcases formatInt_chars n c h with e | ⟨d, hd, e⟩
    · subst e
      exact ⟨rfl, by decide⟩
    · subst e
      interval_cases d <;> exact ⟨rfl, by decide⟩

/-- The characters of a token are characters of the text. -/
theorem mem_of_mem_splitSpace (s : Str) (tok : Str) (htok : tok ∈ splitSpace s) (c : Char)
    (hc : c ∈ tok) : c ∈ s := by
  induction s generalizing tok with
  | nil =>
    simp only [splitSpace, List.mem_singleton] at htok
    subst htok
    simp at hc
  | cons x s ih =>
    by_cases hx : x = ' '
    · simp only [splitSpace, hx, if_true, List.mem_cons] at htok
      rcases htok with h | h
      · subst h
        simp at hc
      · exact List.mem_cons_of_mem _ (ih tok h hc)
    · cases hsp : splitSpace s with
      | nil => exact absurd hsp (splitSpace_ne_nil s)
      | cons t ts =>
        simp only [splitSpace, hx, if_false, hsp, List.mem_cons] at htok
        rcases htok with h | h
        · subst h
          rcases List.mem_cons.1 hc with h2 | h2
          · rw [h2]
            exact List.mem_cons_self _ _
          · exact List.mem_cons_of_mem _ (ih t (by rw [hsp]; exact List.mem_cons_self _ _) h2)
        · exact List.mem_cons_of_mem _
            (ih tok (by rw [hsp]; exact List.mem_cons_of_mem _ h) hc)

/-- A stretch without a space in front of a text goes into its first token. -/
theorem splitSpace_prefix (a s : Str) (ha : ' ' ∉ a) :
    ∃ t ts, splitSpace s = t :: ts ∧ splitSpace (a ++ s) = (a ++ t) :: ts := by
  induction a with
  | nil =>
    cases hsp : splitSpace s with
    | nil => exact absurd hsp (splitSpace_ne_nil s)
    | cons t ts => exact ⟨t, ts, rfl, by simpa using hsp⟩
  | cons x a ih =>
    have hx : x ≠ ' ' := fun e => ha (e ▸ List.mem_cons_self _ _)
    obtain ⟨t, ts, h1, h2⟩ := ih (fun e => ha (List.mem_cons_of_mem _ e))
    exact ⟨t, ts, h1, by simp [splitSpace, hx, h2]⟩

/-- The call `strconv.ParseInt` rejects the empty text and a text that starts with a tab. -/
theorem parseInt_blank_head (ts : List Str) (t : Str)
    (ht : t = [] ∨ ∃ u, t = '\t' :: u) :
    ∃ err, parseInt ((t :: ts).headD []) = .error err := by
  rcases ht with h | ⟨u, h⟩
  · subst h
    exact ⟨_, rfl⟩
  · subst h
    refine ⟨Error.numError "ParseInt".toList ('\t' :: u) .syntaxErr, ?_⟩
    simp [parseInt, parseUint, parseUintLoop]

/-- C16 (the claim fails): with two spaces, `kill  7` gives the identifier
token `""` and the error of `ParseInt`, and closes nothing; with a tab,
`kill<TAB>7` is one token and no kill command; `kill 7` closes session 7. -/
theorem C16_blank_runs_not_split :
    closes (twoSessions.comKill rejectAll "kill 7".toList).events = [⟨1⟩]
    ∧ (twoSessions.comKill rejectAll "kill  7".toList).ret
      = { rs := none, err := some (Error.numError "ParseInt".toList [] .syntaxErr), ok := true }
    ∧ closes (twoSessions.comKill rejectAll "kill  7".toList).events = []
    ∧ splitSpace (normalize rejectAll "kill\t7".toList) = ["kill\t7".toList]
    ∧ (twoSessions.comKill rejectAll "kill\t7".toList).ret
      = { rs := none, err := none, ok := false }
    ∧ closes (twoSessions.comKill rejectAll "kill\t7".toList).events = [] := by
  decide

/-- C16 (amended): the tokens are split at single spaces. With one space,
`kill <n>` is a kill of `n`. With a space and a further run `w` of spaces and
tabs, the identifier token is empty or starts with a tab: the command is
recognized and malformed. With a tab first, the text has no token `kill`: it
is not a kill command. In the last two cases nothing is closed. -/
theorem C16_split_at_single_spaces (env : Env) (this : ServerHandler) (n : Int) (w : Str)
    (h1 : -2 ^ 63 ≤ n) (h2 : n < 2 ^ 63) (hw : ∀ c ∈ w, c = ' ' ∨ c = '\t') :
    ((this.comKill env ("kill".toList ++ ' ' :: formatInt n)).ret.ok = true
      ∧ (∀ c, (this.getConnectorById n).ret = some c →
          closes (this.comKill env ("kill".toList ++ ' ' :: formatInt n)).events = [c])
      ∧ ((this.getConnectorById n).ret = none →
          (this.comKill env ("kill".toList ++ ' ' :: formatInt n)).ret.err
            = some (Error.new ("no connection of :".toList ++ formatInt n))))
    ∧ (w ≠ [] →
        ∃ err, (this.comKill env ("kill".toList ++ ' ' :: (w ++ formatInt n))).ret
            = { rs := none, err := some err, ok := true }
          ∧ (this.comKill env ("kill".toList ++ ' ' :: (w ++ formatInt n))).events = [])
    ∧ ((this.comKill env ("kill".toList ++ '\t' :: (w ++ formatInt n))).ret
          = { rs := none, err := none, ok := false }
        ∧ (this.comKill env ("kill".toList ++ '\t' :: (w ++ formatInt n))).events = []) := by
  have hstable : normalize env (w ++ formatInt n) = w ++ formatInt n :=
    normalize_stable env _ (fun c hc => (blank_or_id_char env w hw n c hc).1)
  refine ⟨?_, ?_, ?_⟩
  · have hk := comKill_kill_id env this "kill".toList rfl n h1 h2
    refine ⟨?_, ?_, ?_⟩
    · rw [hk]
      cases (this.getConnectorById n).ret <;> rfl
    · intro c hc
      rw [hk, hc]
      rfl
    · intro hc
      rw [hk, hc]
  · intro hne
    have htok : splitSpace (normalize env ("kill".toList ++ ' ' :: (w ++ formatInt n)))
        = [] ++ "kill".toList :: splitSpace (w ++ formatInt n) := by
      rw [normalize_append, normalize_space_cons, hstable,
        show normalize env "kill".toList = "kill".toList from rfl,
        splitSpace_append_space _ _ (by decide)]
      rfl
    have hhead : ∃ t ts, splitSpace (w ++ formatInt n) = t :: ts
        ∧ (t = [] ∨ ∃ u, t = '\t' :: u) := by
      cases w with
      | nil => exact absurd rfl hne
      | cons c w1 =>
        rcases hw c (List.mem_cons_self _ _) with e | e
        · subst e
          exact ⟨[], splitSpace (w1 ++ formatInt n), by simp [splitSpace], Or.inl rfl⟩
        · subst e
          obtain ⟨t, ts, _, h4⟩ := splitSpace_prefix ['\t'] (w1 ++ formatInt n) (by decide)
          exact ⟨'\t' :: t, ts, by simpa using h4, Or.inr ⟨t, rfl⟩⟩
    obtain ⟨t, ts, hsp, ht⟩ := hhead
    obtain ⟨err, herr⟩ := parseInt_blank_head ts t ht
    have hk := comKill_of_kill env this _ [] _ htok (by simp)
    rw [hsp, herr] at hk
    simp only at hk
    exact ⟨err, by rw [hk], by rw [hk]⟩
  · have hnorm : normalize env ("kill".toList ++ '\t' :: (w ++ formatInt n))
        = "kill\t".toList ++ (w ++ formatInt n) := by
      have e1 : "kill".toList ++ '\t' :: (w ++ formatInt n)
          = "kill\t".toList ++ (w ++ formatInt n) := by simp
      rw [e1, normalize_append, hstable]
      rfl
    obtain ⟨t, ts, hsp, hpre⟩ := splitSpace_prefix "kill\t".toList (w ++ formatInt n)
      (by decide)
    have hno : "kill".toList ∉ splitSpace (normalize env
        ("kill".toList ++ '\t' :: (w ++ formatInt n))) := by
      rw [hnorm, hpre]
      intro hmem
      rcases List.mem_cons.1 hmem with h | h
      · have hl := congrArg List.length h
        simp at hl
      · have hk : 'k' ∈ w ++ formatInt n :=
          mem_of_mem_splitSpace _ _ (by rw [hsp]; exact List.mem_cons_of_mem _ h) 'k'
            (by decide)
        exact (blank_or_id_char env w hw n 'k' hk).2 rfl
    obtain ⟨_, k2, k3⟩ := comKill_no_kill env this _ hno
    exact ⟨k2, k3⟩

/-- C16 (amended) at `kill` and `7` with two spaces, and with a tab and a space. -/
theorem C16_split_at_single_spaces_witness :
    (∃ err, (twoSessions.comKill rejectAll
          ("kill".toList ++ ' ' :: (" ".toList ++ formatInt 7))).ret
        = { rs := none, err := some err, ok := true })
    ∧ (twoSessions.comKill rejectAll
          ("kill".toList ++ '\t' :: (" ".toList ++ formatInt 7))).ret
        = { rs := none, err := none, ok := false } := by
  have h := C16_split_at_single_spaces rejectAll twoSessions 7 " ".toList (by decide)
    (by decide) (by decide)
  obtain ⟨err, h3, _⟩ := h.2.1 (by decide)
  exact ⟨⟨err, h3⟩, h.2.2.1⟩


/-! ## Lemmas on `float64` -/

theorem log2Fuel_spec (fuel n : Nat) (hn : n ≤ fuel) (h0 : n ≠ 0) :
    2 ^ log2Fuel fuel n ≤ n ∧ n < 2 ^ (log2Fuel fuel n + 1) := by
  induction fuel generalizing n with
  | zero => omega
  | succ fuel ih =>
    unfold log2Fuel
    by_cases h2 : 2 ≤ n
    · rw [if_pos h2]
      obtain ⟨h3, h4⟩ := ih (n / 2) (by omega) (by omega)
      have e1 : 2 ^ (log2Fuel fuel (n / 2) + 1) = 2 * 2 ^ log2Fuel fuel (n / 2) := by
        rw [pow_succ]
        omega
      have e2 : 2 ^ (log2Fuel fuel (n / 2) + 1 + 1)
          = 4 * 2 ^ log2Fuel fuel (n / 2) := by
        rw [pow_succ, pow_succ]
        omega
      rw [e1] at h4
      rw [e1, e2]
      omega
    · rw [if_neg h2]
      simp
      omega

theorem scaleFrac_spec (p q : Nat) (e : Int) (hq : 0 < q) :
    0 < (scaleFrac p q e).2
    ∧ (0 < p → 0 < (scaleFrac p q e).1)
    ∧ ((scaleFrac p q e).1 : ℚ) / ((scaleFrac p q e).2 : ℚ) = (p : ℚ) / (q : ℚ) / (2 : ℚ) ^ e := by
  have hq2 : (q : ℚ) ≠ 0 := by exact_mod_cast hq.ne'
  unfold scaleFrac
  by_cases he : 0 ≤ e
  · rw [if_pos he]
    lift e to ℕ using he
    refine ⟨by positivity, fun h => h, ?_⟩
    simp only [Int.toNat_ofNat, zpow_natCast]
    push_cast
    rw [div_div]
  · rw [if_neg he]
    obtain ⟨n, hn⟩ : ∃ n : ℕ, e = -(n : ℤ) := ⟨(-e).toNat, by omega⟩
    subst hn
    refine ⟨hq, fun h => by positivity, ?_⟩
    simp only [neg_neg, Int.toNat_ofNat, zpow_neg, zpow_natCast]
    push_cast
    field_simp

theorem floorLog2_spec (p q : Nat) (hp : 0 < p) (hq : 0 < q) :
    (2 : ℚ) ^ floorLog2 p q ≤ (p : ℚ) / (q : ℚ)
    ∧ (p : ℚ) / (q : ℚ) < (2 : ℚ) ^ (floorLog2 p q + 1) := by
  obtain ⟨a1, a2⟩ := log2Fuel_spec p p (le_refl _) hp.ne'
  obtain ⟨b1, b2⟩ := log2Fuel_spec q q (le_refl _) hq.ne'
  have hqq : (0 : ℚ) < q := by exact_mod_cast hq
  have hpp : (0 : ℚ) < p := by exact_mod_cast hp
  have A1 : (2 : ℚ) ^ (log2Fuel p p : ℤ) ≤ p := by
    rw [zpow_natCast]
    exact_mod_cast a1
  have A2 : (p : ℚ) < (2 : ℚ) ^ ((log2Fuel p p : ℤ) + 1) := by
    have : ((log2Fuel p p : ℤ) + 1) = ((log2Fuel p p + 1 : ℕ) : ℤ) := by push_cast; ring
    rw [this, zpow_natCast]
    exact_mod_cast a2
  have B1 : (2 : ℚ) ^ (log2Fuel q q : ℤ) ≤ q := by
    rw [zpow_natCast]
    exact_mod_cast b1
  have B2 : (q : ℚ) < (2 : ℚ) ^ ((log2Fuel q q : ℤ) + 1) := by
    have : ((log2Fuel q q : ℤ) + 1) = ((log2Fuel q q + 1 : ℕ) : ℤ) := by push_cast; ring
    rw [this, zpow_natCast]
    exact_mod_cast b2
  have two : (2 : ℚ) ≠ 0 := by norm_num
  have hb0 : (0 : ℚ) < (2 : ℚ) ^ (log2Fuel q q : ℤ) := zpow_pos (by norm_num) _
  have hb1 : (0 : ℚ) < (2 : ℚ) ^ ((log2Fuel q q : ℤ) + 1) := zpow_pos (by norm_num) _
  -- the quotient lies strictly between 2^(k-1) and 2^(k+1)
  have up : (p : ℚ) / q < (2 : ℚ) ^ ((log2Fuel p p : ℤ) - (log2Fuel q q : ℤ) + 1) := by
    have e : (log2Fuel p p : ℤ) - (log2Fuel q q : ℤ) + 1
        = ((log2Fuel p p : ℤ) + 1) - (log2Fuel q q : ℤ) := by ring
    rw [e, zpow_sub₀ two, div_lt_div_iff hqq hb0]
    calc (p : ℚ) * 2 ^ (log2Fuel q q : ℤ) ≤ p * q := by
          exact mul_le_mul_of_nonneg_left B1 hpp.le
      _ < 2 ^ ((log2Fuel p p : ℤ) + 1) * q := by
          exact mul_lt_mul_of_pos_right A2 hqq
  have low : (2 : ℚ) ^ ((log2Fuel p p : ℤ) - (log2Fuel q q : ℤ) - 1) ≤ (p : ℚ) / q := by
    have e : (log2Fuel p p : ℤ) - (log2Fuel q q : ℤ) - 1
        = (log2Fuel p p : ℤ) - ((log2Fuel q q : ℤ) + 1) := by ring
    rw [e, zpow_sub₀ two, div_le_div_iff hb1 hqq]
    calc (2 : ℚ) ^ (log2Fuel p p : ℤ) * q ≤ p * q := by
          exact mul_le_mul_of_nonneg_right A1 hqq.le
      _ ≤ p * 2 ^ ((log2Fuel q q : ℤ) + 1) := by
          exact mul_le_mul_of_nonneg_left B2.le hpp.le
  obtain ⟨s2, _, s3⟩ := scaleFrac_spec p q ((log2Fuel p p : ℤ) - (log2Fuel q q : ℤ)) hq
  have hs2 : (0 : ℚ) < ((scaleFrac p q ((log2Fuel p p : ℤ) - (log2Fuel q q : ℤ))).2 : ℚ) := by
    exact_mod_cast s2
  have hk : (0 : ℚ) < (2 : ℚ) ^ ((log2Fuel p p : ℤ) - (log2Fuel q q : ℤ)) :=
    zpow_pos (by norm_num) _
  unfold floorLog2
  simp only []
  by_cases ht : (scaleFrac p q ((log2Fuel p p : ℤ) - (log2Fuel q q : ℤ))).2
      ≤ (scaleFrac p q ((log2Fuel p p : ℤ) - (log2Fuel q q : ℤ))).1
  · rw [if_pos ht]
    refine ⟨?_, up⟩
    have h1 : (1 : ℚ) ≤ ((scaleFrac p q ((log2Fuel p p : ℤ) - (log2Fuel q q : ℤ))).1 : ℚ)
        / ((scaleFrac p q ((log2Fuel p p : ℤ) - (log2Fuel q q : ℤ))).2 : ℚ) := by
      rw [le_div_iff₀ hs2, one_mul]
      exact_mod_cast ht
    rw [s3, le_div_iff₀ hk, one_mul] at h1
    exact h1
  · rw [if_neg ht]
    refine ⟨low, ?_⟩
    have h1 : ((scaleFrac p q ((log2Fuel p p : ℤ) - (log2Fuel q q : ℤ))).1 : ℚ)
        / ((scaleFrac p q ((log2Fuel p p : ℤ) - (log2Fuel q q : ℤ))).2 : ℚ) < 1 := by
      rw [div_lt_iff₀ hs2, one_mul]
      exact_mod_cast not_le.1 ht
    rw [s3, div_lt_iff₀ hk, one_mul] at h1
    have e : (log2Fuel p p : ℤ) - (log2Fuel q q : ℤ) - 1 + 1
        = (log2Fuel p p : ℤ) - (log2Fuel q q : ℤ) := by ring
    rw [e]
    exact h1

/-- What the rounding gives for a positive fraction: a mantissa of at least
`2^52` at the exponent of the fraction less 52, within half a unit in the last
place of the fraction. -/
theorem roundFloat64_spec (sign : Bool) (p q : Nat) (hp : 0 < p) (hq : 0 < q) :
    ∃ m : Nat, roundFloat64 sign p q = { sign := sign, mant := m, exp := floorLog2 p q - 52 }
      ∧ 2 ^ 52 ≤ m
      ∧ |(p : ℚ) / (q : ℚ) - (m : ℚ) * (2 : ℚ) ^ (floorLog2 p q - 52)|
          ≤ (2 : ℚ) ^ (floorLog2 p q - 52) / 2 := by
  obtain ⟨l1, _⟩ := floorLog2_spec p q hp hq
  obtain ⟨s2, _, s3⟩ := scaleFrac_spec p q (floorLog2 p q - 52) hq
  generalize hS : scaleFrac p q (floorLog2 p q - 52) = S at s2 s3
  have two : (2 : ℚ) ≠ 0 := by norm_num
  have he : (0 : ℚ) < (2 : ℚ) ^ (floorLog2 p q - 52) := zpow_pos (by norm_num) _
  have hS2 : (0 : ℚ) < (S.2 : ℚ) := by exact_mod_cast s2
  -- the scaled fraction is at least 2^52
  have hY : (2 : ℚ) ^ (52 : ℕ) ≤ (S.1 : ℚ) / (S.2 : ℚ) := by
    rw [s3, le_div_iff₀ he]
    have e1 : (2 : ℚ) ^ (52 : ℕ) * (2 : ℚ) ^ (floorLog2 p q - 52) = (2 : ℚ) ^ floorLog2 p q := by
      rw [← zpow_natCast, ← zpow_add₀ two]
      congr 1
      push_cast
      ring
    rw [e1]
    exact l1
  have hdm : S.2 * (S.1 / S.2) + S.1 % S.2 = S.1 := Nat.div_add_mod S.1 S.2
  have hr : S.1 % S.2 < S.2 := Nat.mod_lt _ s2
  have hm52 : 2 ^ 52 ≤ S.1 / S.2 := by
    rw [Nat.le_div_iff_mul_le s2]
    have h1 : (2 : ℚ) ^ (52 : ℕ) * (S.2 : ℚ) ≤ (S.1 : ℚ) := by
      rwa [le_div_iff₀ hS2] at hY
    exact_mod_cast h1
  have hdmq : (S.1 : ℚ) = (S.2 : ℚ) * ((S.1 / S.2 : ℕ) : ℚ) + ((S.1 % S.2 : ℕ) : ℚ) := by
    exact_mod_cast hdm.symm
  have hrq : ((S.1 % S.2 : ℕ) : ℚ) < (S.2 : ℚ) := by exact_mod_cast hr
  have hr0 : (0 : ℚ) ≤ ((S.1 % S.2 : ℕ) : ℚ) := by positivity
  have hX : (p : ℚ) / (q : ℚ) = (S.1 : ℚ) / (S.2 : ℚ) * (2 : ℚ) ^ (floorLog2 p q - 52) := by
    rw [s3]
    field_simp
    ring
  -- the error of a mantissa near the scaled fraction
  have herr : ∀ m : ℕ, |(S.1 : ℚ) / (S.2 : ℚ) - (m : ℚ)| ≤ 1 / 2 →
      |(p : ℚ) / (q : ℚ) - (m : ℚ) * (2 : ℚ) ^ (floorLog2 p q - 52)|
        ≤ (2 : ℚ) ^ (floorLog2 p q - 52) / 2 := by
    intro m hm
    have e2 : (p : ℚ) / (q : ℚ) - (m : ℚ) * (2 : ℚ) ^ (floorLog2 p q - 52)
        = ((S.1 : ℚ) / (S.2 : ℚ) - (m : ℚ)) * (2 : ℚ) ^ (floorLog2 p q - 52) := by
      rw [hX]
      ring
    rw [e2, abs_mul, abs_of_pos he]
    calc |(S.1 : ℚ) / (S.2 : ℚ) - (m : ℚ)| * (2 : ℚ) ^ (floorLog2 p q - 52)
        ≤ 1 / 2 * (2 : ℚ) ^ (floorLog2 p q - 52) := mul_le_mul_of_nonneg_right hm he.le
      _ = (2 : ℚ) ^ (floorLog2 p q - 52) / 2 := by ring
  have hYm : (S.1 : ℚ) / (S.2 : ℚ) = ((S.1 / S.2 : ℕ) : ℚ) + ((S.1 % S.2 : ℕ) : ℚ) / (S.2 : ℚ) := by
    rw [hdmq]
    field_simp
    ring
  unfold roundFloat64
  rw [if_neg hp.ne']
  simp only [hS]
  by_cases hup : (decide (S.2 < 2 * (S.1 % S.2))
      || (decide (2 * (S.1 % S.2) = S.2) && decide (S.1 / S.2 % 2 = 1))) = true
  · rw [if_pos hup]
    refine ⟨S.1 / S.2 + 1, rfl, by omega, herr _ ?_⟩
    have h2r : S.2 ≤ 2 * (S.1 % S.2) := by
      simp only [Bool.or_eq_true, Bool.and_eq_true, decide_eq_true_eq] at hup
      rcases hup with h | ⟨h, _⟩ <;> omega
    have h2rq : (S.2 : ℚ) ≤ 2 * ((S.1 % S.2 : ℕ) : ℚ) := by exact_mod_cast h2r
    have hfrac : (1 : ℚ) / 2 ≤ ((S.1 % S.2 : ℕ) : ℚ) / (S.2 : ℚ) := by
      rw [le_div_iff₀ hS2]
      linarith
    have hfrac1 : ((S.1 % S.2 : ℕ) : ℚ) / (S.2 : ℚ) < 1 := by
      rw [div_lt_iff₀ hS2]
      linarith
    rw [hYm, abs_le]
    push_cast
    constructor <;> linarith
  · rw [if_neg hup]
    refine ⟨S.1 / S.2, rfl, hm52, herr _ ?_⟩
    have h2r : 2 * (S.1 % S.2) ≤ S.2 := by
      simp only [Bool.or_eq_true, Bool.and_eq_true, decide_eq_true_eq, not_or, not_lt] at hup
      exact hup.1
    have h2rq : 2 * ((S.1 % S.2 : ℕ) : ℚ) ≤ (S.2 : ℚ) := by exact_mod_cast h2r
    have hfrac : ((S.1 % S.2 : ℕ) : ℚ) / (S.2 : ℚ) ≤ 1 / 2 := by
      rw [div_le_iff₀ hS2]
      linarith
    have hfrac0 : (0 : ℚ) ≤ ((S.1 % S.2 : ℕ) : ℚ) / (S.2 : ℚ) := by positivity
    rw [hYm, abs_le]
    constructor <;> linarith

theorem Float64.scaled_cast (a : Float64) (e : Int) (he : e ≤ a.exp) :
    ((a.scaled e : ℤ) : ℚ) = a.val / (2 : ℚ) ^ e := by
  have two : (2 : ℚ) ≠ 0 := by norm_num
  obtain ⟨n, hn⟩ : ∃ n : ℕ, a.exp - e = (n : ℤ) := ⟨(a.exp - e).toNat, by omega⟩
  have h2 : (2 : ℚ) ^ a.exp / (2 : ℚ) ^ e = (2 : ℚ) ^ n := by
    rw [← zpow_sub₀ two, hn, zpow_natCast]
  unfold Float64.scaled Float64.val
  rw [hn, Int.toNat_ofNat, mul_div_assoc, h2]
  cases a.sign <;> push_cast <;> simp

/-- The comparison of `float64` is the comparison of the numbers. -/
theorem Float64.lt_iff (a b : Float64) : Float64.lt a b = true ↔ a.val < b.val := by
  have he : (0 : ℚ) < (2 : ℚ) ^ (min a.exp b.exp) := zpow_pos (by norm_num) _
  unfold Float64.lt
  rw [decide_eq_true_eq, ← @Int.cast_lt ℚ, Float64.scaled_cast a _ (min_le_left _ _),
    Float64.scaled_cast b _ (min_le_right _ _), div_lt_div_right he]

/-- The rounding of a positive integer below `2^53` is exact. -/
theorem roundFloat64_nat_exact (sign : Bool) (P : Nat) (hp : 0 < P) (hp53 : P < 2 ^ 53) :
    ∃ (m : Nat) (e : Int), roundFloat64 sign P 1 = { sign := sign, mant := m, exp := e }
      ∧ 0 < m ∧ (m : ℚ) * (2 : ℚ) ^ e = (P : ℚ) := by
  obtain ⟨m, hm, hm52, herr⟩ := roundFloat64_spec sign P 1 hp Nat.one_pos
  obtain ⟨l1, _⟩ := floorLog2_spec P 1 hp Nat.one_pos
  have two : (2 : ℚ) ≠ 0 := by norm_num
  have hpq : (P : ℚ) < (2 : ℚ) ^ (53 : ℤ) := by
    rw [show (2 : ℚ) ^ (53 : ℤ) = ((2 ^ 53 : ℕ) : ℚ) by norm_num]
    exact_mod_cast hp53
  have hL : floorLog2 P 1 < 53 := by
    have h3 : (2 : ℚ) ^ floorLog2 P 1 < (2 : ℚ) ^ (53 : ℤ) := by
      have h4 : (2 : ℚ) ^ floorLog2 P 1 ≤ (P : ℚ) := by simpa using l1
      exact lt_of_le_of_lt h4 hpq
    exact (zpow_lt_zpow_iff_right₀ (by norm_num : (1 : ℚ) < 2)).1 h3
  obtain ⟨k, hk⟩ : ∃ k : ℕ, floorLog2 P 1 - 52 = -(k : ℤ) :=
    ⟨(52 - floorLog2 P 1).toNat, by omega⟩
  rw [hk] at hm herr
  have hk2 : (2 : ℚ) ^ (-(k : ℤ)) * (2 : ℚ) ^ k = 1 := by
    rw [zpow_neg, zpow_natCast]
    field_simp
  have hkpos : (0 : ℚ) < (2 : ℚ) ^ k := by positivity
  -- the mantissa is the integer scaled up
  have hZ : ((P * 2 ^ k : ℕ) : ℤ) - (m : ℤ) = 0 := by
    rw [← Int.abs_lt_one_iff]
    have h5 : |(((((P * 2 ^ k : ℕ) : ℤ) - (m : ℤ) : ℤ)) : ℚ)| < 1 := by
      have e1 : (((((P * 2 ^ k : ℕ) : ℤ) - (m : ℤ) : ℤ)) : ℚ)
          = ((P : ℚ) / ((1 : ℕ) : ℚ) - (m : ℚ) * (2 : ℚ) ^ (-(k : ℤ))) * (2 : ℚ) ^ k := by
        push_cast
        have : (m : ℚ) * (2 : ℚ) ^ (-(k : ℤ)) * (2 : ℚ) ^ k = (m : ℚ) := by
          rw [mul_assoc, hk2, mul_one]
        rw [sub_mul, this]
        simp
      rw [e1, abs_mul, abs_of_pos hkpos]
      calc |(P : ℚ) / ((1 : ℕ) : ℚ) - (m : ℚ) * (2 : ℚ) ^ (-(k : ℤ))| * (2 : ℚ) ^ k
          ≤ (2 : ℚ) ^ (-(k : ℤ)) / 2 * (2 : ℚ) ^ k := mul_le_mul_of_nonneg_right herr hkpos.le
        _ = 1 / 2 := by rw [div_mul_eq_mul_div, hk2]
        _ < 1 := by norm_num
    exact_mod_cast h5
  have hmeq : (m : ℚ) = (P : ℚ) * (2 : ℚ) ^ k := by
    have : ((P * 2 ^ k : ℕ) : ℤ) = (m : ℤ) := by omega
    have h6 : ((P * 2 ^ k : ℕ) : ℚ) = (m : ℚ) := by exact_mod_cast this
    rw [← h6]
    push_cast
    ring
  refine ⟨m, -(k : ℤ), hm, by omega, ?_⟩
  rw [hmeq, mul_assoc, mul_comm ((2 : ℚ) ^ k), hk2, mul_one]

/-- The conversion of an integer below `2^53` in size is exact. -/
theorem ofInt_small (n : Int) (hn : n ≠ 0) (h1 : -2 ^ 53 < n) (h2 : n < 2 ^ 53) :
    ∃ (m : Nat) (e : Int), Float64.ofInt n = { sign := decide (n < 0), mant := m, exp := e }
      ∧ 0 < m ∧ (m : ℚ) * (2 : ℚ) ^ e = (n.natAbs : ℚ) :=
  roundFloat64_nat_exact (decide (n < 0)) n.natAbs (Int.natAbs_pos.2 hn) (by omega)

/-- The conversion of an integer from `2^53` on is at least `2^53`. -/
theorem ofInt_big (n : Int) (hn : 2 ^ 53 ≤ n) :
    ∃ (m : Nat) (e : Int), Float64.ofInt n = { sign := false, mant := m, exp := e }
      ∧ (2 : ℚ) ^ (53 : ℕ) ≤ (m : ℚ) * (2 : ℚ) ^ e := by
  have hp : 0 < n.natAbs := by omega
  have hp53 : 2 ^ 53 ≤ n.natAbs := by omega
  have hneg : decide (n < 0) = false := by
    simp only [decide_eq_false_iff_not, not_lt]
    omega
  unfold Float64.ofInt
  rw [hneg]
  generalize n.natAbs = P at hp hp53
  obtain ⟨m, hm, hm52, _⟩ := roundFloat64_spec false P 1 hp Nat.one_pos
  obtain ⟨_, l2⟩ := floorLog2_spec P 1 hp Nat.one_pos
  have hpq : (2 : ℚ) ^ (53 : ℤ) ≤ (P : ℚ) := by
    rw [show (2 : ℚ) ^ (53 : ℤ) = ((2 ^ 53 : ℕ) : ℚ) by norm_num]
    exact_mod_cast hp53
  have hL : (53 : ℤ) < floorLog2 P 1 + 1 := by
    have h3 : (2 : ℚ) ^ (53 : ℤ) < (2 : ℚ) ^ (floorLog2 P 1 + 1) := by
      have h4 : (P : ℚ) < (2 : ℚ) ^ (floorLog2 P 1 + 1) := by simpa using l2
      exact lt_of_le_of_lt hpq h4
    exact (zpow_lt_zpow_iff_right₀ (by norm_num : (1 : ℚ) < 2)).1 h3
  have he : (2 : ℚ) ^ (1 : ℤ) ≤ (2 : ℚ) ^ (floorLog2 P 1 - 52) :=
    zpow_le_zpow_right₀ (by norm_num) (by omega)
  have hmq : (2 : ℚ) ^ (52 : ℕ) ≤ (m : ℚ) := by exact_mod_cast hm52
  refine ⟨m, floorLog2 P 1 - 52, hm, ?_⟩
  calc (2 : ℚ) ^ (53 : ℕ) = (2 : ℚ) ^ (52 : ℕ) * (2 : ℚ) ^ (1 : ℤ) := by norm_num
    _ ≤ (m : ℚ) * (2 : ℚ) ^ (floorLog2 P 1 - 52) :=
        mul_le_mul hmq he (by norm_num) (by positivity)

/-- The quotient of two `float64` that are not zero: the rounding of the quotient
of the numbers. -/
theorem Float64.div_spec (sa sb : Bool) (ma mb : Nat) (ea eb : Int) (ha : 0 < ma)
    (hb : 0 < mb) :
    ∃ (m : Nat) (e : Int),
      Float64.div { sign := sa, mant := ma, exp := ea } { sign := sb, mant := mb, exp := eb }
        = { sign := sa != sb, mant := m, exp := e }
      ∧ 2 ^ 52 ≤ m
      ∧ (2 : ℚ) ^ (e + 52) ≤ (ma : ℚ) * (2 : ℚ) ^ ea / ((mb : ℚ) * (2 : ℚ) ^ eb)
      ∧ |(ma : ℚ) * (2 : ℚ) ^ ea / ((mb : ℚ) * (2 : ℚ) ^ eb) - (m : ℚ) * (2 : ℚ) ^ e|
          ≤ (2 : ℚ) ^ e / 2 := by
  obtain ⟨s2, s1, s3⟩ := scaleFrac_spec ma mb (eb - ea) hb
  have s1p := s1 ha
  generalize hS : scaleFrac ma mb (eb - ea) = S at s2 s1p s3
  have two : (2 : ℚ) ≠ 0 := by norm_num
  have hX : (S.1 : ℚ) / (S.2 : ℚ) = (ma : ℚ) * (2 : ℚ) ^ ea / ((mb : ℚ) * (2 : ℚ) ^ eb) := by
    rw [s3, zpow_sub₀ two]
    have hmb : (mb : ℚ) ≠ 0 := by exact_mod_cast hb.ne'
    have h1 : (2 : ℚ) ^ ea ≠ 0 := zpow_ne_zero _ two
    have h2 : (2 : ℚ) ^ eb ≠ 0 := zpow_ne_zero _ two
    field_simp
  obtain ⟨m, hm, hm52, herr⟩ := roundFloat64_spec (sa != sb) S.1 S.2 s1p s2
  obtain ⟨l1, _⟩ := floorLog2_spec S.1 S.2 s1p s2
  refine ⟨m, floorLog2 S.1 S.2 - 52, ?_, hm52, ?_, ?_⟩
  · unfold Float64.div
    simp only [hS]
    exact hm
  · rw [← hX]
    have : floorLog2 S.1 S.2 - 52 + 52 = floorLog2 S.1 S.2 := by ring
    rw [this]
    exact l1
  · rw [← hX]
    exact herr

/-- The quotient of zero is zero. -/
theorem Float64.div_zero_left (sa : Bool) (ea : Int) (b : Float64) :
    (Float64.div { sign := sa, mant := 0, exp := ea } b).val = 0 := by
  have h : (scaleFrac 0 b.mant (b.exp - ea)).1 = 0 := by
    unfold scaleFrac
    split <;> simp
  unfold Float64.div
  simp only [h]
  simp [roundFloat64, Float64.val]

/-- The value of the threshold as a `float64`: exact below `2^53`, at least `2^53`
from there on. -/
theorem ofInt_threshold (T : Int) (hT : 0 < T) :
    (T < 2 ^ 53 → (Float64.ofInt T).val = (T : ℚ))
    ∧ (2 ^ 53 ≤ T → (2 : ℚ) ^ (53 : ℕ) ≤ (Float64.ofInt T).val) := by
  constructor
  · intro h
    obtain ⟨m, e, hm, _, hv⟩ := ofInt_small T (by omega) (by omega) h
    have hneg : decide (T < 0) = false := by
      simp only [decide_eq_false_iff_not, not_lt]
      omega
    have habs : ((T.natAbs : ℕ) : ℚ) = (T : ℚ) := by
      rw [Nat.cast_natAbs, abs_of_pos hT]
    rw [hm, hneg]
    simp only [Float64.val, Bool.false_eq_true, if_false, one_mul]
    rw [hv, habs]
  · intro h
    obtain ⟨m, e, hm, hv⟩ := ofInt_big T h
    rw [hm]
    simpa [Float64.val] using hv

/-- The decision of `QueryTimeRecord` for an elapsed time below `2^53`
nanoseconds in size: the comparison in `float64` is the exact one. -/
theorem slow_decision (d T : Int) (h1 : -2 ^ 53 < d) (h2 : d < 2 ^ 53) (hT : 0 < T) :
    Float64.lt (Float64.div (Float64.ofInt d) (Float64.ofInt 1000000)) (Float64.ofInt T) = true
      ↔ d < T * 1000000 := by
  rw [Float64.lt_iff]
  obtain ⟨hc1, hc2⟩ := ofInt_threshold T hT
  norm_num at h1 h2
  have hcpos : (0 : ℚ) < (Float64.ofInt T).val := by
    by_cases h : T < 2 ^ 53
    · rw [hc1 h]
      exact_mod_cast hT
    · have := hc2 (by omega)
      have h53 : (0 : ℚ) < (2 : ℚ) ^ (53 : ℕ) := by positivity
      linarith
  obtain ⟨mb, eb, hb, hmb, hvb⟩ := ofInt_small 1000000 (by norm_num) (by norm_num)
    (by norm_num)
  have hnegb : decide ((1000000 : ℤ) < 0) = false := by decide
  rw [hnegb] at hb
  have hvb2 : (mb : ℚ) * (2 : ℚ) ^ eb = 1000000 := by
    rw [hvb]
    norm_num
  rcases lt_trichotomy d 0 with hd | hd | hd
  · -- a negative elapsed time
    obtain ⟨ma, ea, ha, hma, _⟩ := ofInt_small d (by omega) (by omega) (by omega)
    obtain ⟨m, e, hq, hm52, _, _⟩ := Float64.div_spec (decide (d < 0)) false ma mb ea eb hma hmb
    have hneg : decide (d < 0) = true := by simpa using hd
    rw [ha, hb, hq, hneg]
    have hval : (Float64.val { sign := (true != false), mant := m, exp := e }) < 0 := by
      have hm0 : (0 : ℚ) < (m : ℚ) := by
        have : 0 < m := by omega
        exact_mod_cast this
      have he0 : (0 : ℚ) < (2 : ℚ) ^ e := zpow_pos (by norm_num) _
      have : (0 : ℚ) < (m : ℚ) * (2 : ℚ) ^ e := mul_pos hm0 he0
      simp only [Float64.val, Bool.true_bne, Bool.not_false, if_true]
      linarith
    constructor
    · intro _
      omega
    · intro _
      linarith
  · -- no elapsed time
    subst hd
    have h0 : Float64.ofInt 0 = { sign := false, mant := 0, exp := 0 } := by decide
    rw [h0, Float64.div_zero_left]
    constructor
    · intro _
      omega
    · intro _
      exact hcpos
  · -- a positive elapsed time
    obtain ⟨ma, ea, ha, hma, hva⟩ := ofInt_small d (by omega) (by omega) (by omega)
    obtain ⟨m, e, hq, hm52, hlow, herr⟩ :=
      Float64.div_spec (decide (d < 0)) false ma mb ea eb hma hmb
    have hneg : decide (d < 0) = false := by
      simp only [decide_eq_false_iff_not, not_lt]
      omega
    have habs : ((d.natAbs : ℕ) : ℚ) = (d : ℚ) := by
      rw [Nat.cast_natAbs, abs_of_pos hd]
    rw [hva, hvb2, habs] at hlow herr
    rw [ha, hb, hq, hneg]
    have hvq : Float64.val { sign := (false != false), mant := m, exp := e }
        = (m : ℚ) * (2 : ℚ) ^ e := by
      simp [Float64.val]
    rw [hvq]
    have hdq : (d : ℚ) < 9007199254740992 := by exact_mod_cast h2
    have hd0 : (0 : ℚ) < (d : ℚ) := by exact_mod_cast hd
    have hX : (d : ℚ) / 1000000 < (2 : ℚ) ^ (34 : ℤ) := by
      rw [show (2 : ℚ) ^ (34 : ℤ) = 17179869184 by norm_num, div_lt_iff₀ (by norm_num)]
      linarith
    have he : e + 52 < 34 :=
      (zpow_lt_zpow_iff_right₀ (by norm_num : (1 : ℚ) < 2)).1 (lt_of_le_of_lt hlow hX)
    have h2e : (2 : ℚ) ^ e ≤ 1 / 524288 := by
      have : (2 : ℚ) ^ e ≤ (2 : ℚ) ^ (-19 : ℤ) := zpow_le_zpow_right₀ (by norm_num) (by omega)
      rw [show (2 : ℚ) ^ (-19 : ℤ) = 1 / 524288 by rw [zpow_neg]; norm_num] at this
      exact this
    have he0 : (0 : ℚ) < (2 : ℚ) ^ e := zpow_pos (by norm_num) _
    obtain ⟨herr1, herr2⟩ := abs_le.1 herr
    by_cases hTb : T < 2 ^ 53
    · rw [hc1 hTb]
      constructor
      · intro hlt
        by_contra hge
        have hge2 : T * 1000000 ≤ d := by omega
        have hXT : (T : ℚ) ≤ (d : ℚ) / 1000000 := by
          rw [le_div_iff₀ (by norm_num)]
          exact_mod_cast hge2
        obtain ⟨k, hk⟩ : ∃ k : ℕ, e = -(k : ℤ) := ⟨(-e).toNat, by omega⟩
        have hk2 : (2 : ℚ) ^ e * (2 : ℚ) ^ k = 1 := by
          rw [hk, zpow_neg, zpow_natCast]
          field_simp
        have hkpos : (0 : ℚ) < (2 : ℚ) ^ k := by positivity
        -- the mantissa against the threshold scaled up, as integers
        have hmlt : (m : ℚ) < (T : ℚ) * (2 : ℚ) ^ k := by
          have := mul_lt_mul_of_pos_right hlt hkpos
          rwa [mul_assoc, hk2, mul_one] at this
        have hmlt2 : (m : ℤ) < T * 2 ^ k := by exact_mod_cast hmlt
        have hmle : (m : ℤ) + 1 ≤ T * 2 ^ k := by omega
        have hmle2 : (m : ℚ) + 1 ≤ (T : ℚ) * (2 : ℚ) ^ k := by exact_mod_cast hmle
        have hmge : ((T : ℚ) - (2 : ℚ) ^ e / 2) * (2 : ℚ) ^ k ≤ (m : ℚ) := by
          have h3 : (T : ℚ) - (2 : ℚ) ^ e / 2 ≤ (m : ℚ) * (2 : ℚ) ^ e := by linarith
          have := mul_le_mul_of_nonneg_right h3 hkpos.le
          rwa [mul_assoc, hk2, mul_one] at this
        have hexp : ((T : ℚ) - (2 : ℚ) ^ e / 2) * (2 : ℚ) ^ k
            = (T : ℚ) * (2 : ℚ) ^ k - 1 / 2 := by
          rw [sub_mul, div_mul_eq_mul_div, hk2]
        rw [hexp] at hmge
        linarith
      · intro hlt
        have hle : d ≤ T * 1000000 - 1 := by omega
        have hle2 : (d : ℚ) ≤ (T : ℚ) * 1000000 - 1 := by exact_mod_cast hle
        have hXT : (d : ℚ) / 1000000 ≤ (T : ℚ) - 1 / 1000000 := by
          rw [div_le_iff₀ (by norm_num)]
          linarith
        linarith
    · have hvc := hc2 (by omega)
      have h53 : (2 : ℚ) ^ (53 : ℕ) = 9007199254740992 := by norm_num
      have h34 : (2 : ℚ) ^ (34 : ℤ) = 17179869184 := by norm_num
      rw [h53] at hvc
      rw [h34] at hX
      constructor
      · intro _
        omega
      · intro _
        linarith

/-! ## The slow log -/

theorem timeSub_of_small (t u : Int) (h1 : -2 ^ 53 < t - u) (h2 : t - u < 2 ^ 53) :
    timeSub t u = t - u := by
  unfold timeSub
  norm_num at h1 h2 ⊢
  rw [if_neg (by omega), if_neg (by omega)]

set_option maxRecDepth 100000 in
/-- C14 (the claim fails): with the threshold `2^34` milliseconds and an
elapsed time one nanosecond short of it, the elapsed time is below the
threshold, and `QueryTimeRecord` emits a record: the conversion of the
nanoseconds to `float64` rounds them up to the threshold. -/
theorem C14_rounding_of_long_elapsed :
    (0 : Int) < 17179869184
    ∧ (17179869183999999 : Int) - 0 < 17179869184 * 1000000
    ∧ (twoSessions.QueryTimeRecord 17179869184 17179869183999999 "select 1".toList 0).length
      = 1 := by
  decide

/-- C14 (amended): a threshold of zero or less emits nothing, for every
duration; and for an elapsed time `now - startTime` below `2^53` nanoseconds in
size, `QueryTimeRecord` emits one record, holding the text and the elapsed
milliseconds, when the threshold is positive and the elapsed time, in exact
milliseconds, is at least the threshold, and nothing otherwise. -/
theorem C14_slow_record (this : ServerHandler) (slowTime now startTime : Int) (query : Str) :
    (slowTime ≤ 0 → this.QueryTimeRecord slowTime now query startTime = [])
    ∧ (-2 ^ 53 < now - startTime → now - startTime < 2 ^ 53 →
        this.QueryTimeRecord slowTime now query startTime
          = if 0 < slowTime ∧ slowTime * 1000000 ≤ now - startTime then
              [{ query := query
                 millisecond := Float64.div (Float64.ofInt (now - startTime))
                   (Float64.ofInt 1000000) }]
            else []) := by
  constructor
  · intro hs
    unfold ServerHandler.QueryTimeRecord
    rw [if_pos hs]
  · intro h1 h2
    unfold ServerHandler.QueryTimeRecord
    by_cases hs : slowTime ≤ 0
    · rw [if_pos hs, if_neg (by omega)]
    · rw [if_neg hs, timeSub_of_small now startTime h1 h2]
      have hdec := slow_decision (now - startTime) slowTime h1 h2 (by omega)
      simp only []
      by_cases hlt : now - startTime < slowTime * 1000000
      · rw [if_pos (hdec.2 hlt), if_neg (by omega)]
      · have hnl : ¬ (Float64.lt (Float64.div (Float64.ofInt (now - startTime))
            (Float64.ofInt 1000000)) (Float64.ofInt slowTime) = true) := fun h => hlt (hdec.1 h)
        rw [if_neg hnl, if_pos ⟨by omega, by omega⟩]

/-- C14 (amended) with the threshold 100 at 50 ms, at 150 ms and at 100 ms, and
with the thresholds 0 and -5. -/
theorem C14_slow_record_witness :
    twoSessions.QueryTimeRecord 100 50000000 "select 1".toList 0 = []
    ∧ (twoSessions.QueryTimeRecord 100 150000000 "select 1".toList 0).length = 1
    ∧ (twoSessions.QueryTimeRecord 100 100000000 "select 1".toList 0).length = 1
    ∧ (twoSessions.QueryTimeRecord 100 99999999 "select 1".toList 0).length = 0
    ∧ twoSessions.QueryTimeRecord 0 17179869183999999 "select 1".toList 0 = []
    ∧ twoSessions.QueryTimeRecord (-5) 17179869183999999 "select 1".toList 0 = [] := by
  have a := (C14_slow_record twoSessions 100 50000000 0 "select 1".toList).2
    (by decide) (by decide)
  have b := (C14_slow_record twoSessions 100 150000000 0 "select 1".toList).2
    (by decide) (by decide)
  have c := (C14_slow_record twoSessions 100 100000000 0 "select 1".toList).2
    (by decide) (by decide)
  have d := (C14_slow_record twoSessions 100 99999999 0 "select 1".toList).2
    (by decide) (by decide)
  have e := (C14_slow_record twoSessions 0 17179869183999999 0 "select 1".toList).1
    (by decide)
  have f := (C14_slow_record twoSessions (-5) 17179869183999999 0 "select 1".toList).1
    (by decide)
  refine ⟨?_, ?_, ?_, ?_, e, f⟩
  · rw [a]
    decide
  · rw [b]
    decide
  · rw [c]
    decide
  · rw [d]
    decide

end Myhub
